import Mathlib

/-!
# Zone Planner Engine — shallow embedding

This file embeds the zone-planning engine (`zonePlanner` module: `clusterPOIs`,
`mergeSmallClusters`, `planZones`, `getZonePOIs`, `calculateOverallBounds`) in
Lean 4 and proves the specified properties about it.

Modelling decisions, recorded once here:

* Coordinates, distances and zoom levels are JS `number`s in the source; they
  are modelled as `ℚ`.  The cluster-size options `minPoisPerZone` and
  `maxPoisPerZone` are element counts compared against list lengths; they are
  modelled as `ℕ` (the properties under consideration restrict them to
  positive integers).
* `haversineDistance` computes a great-circle distance with `Float`
  trigonometry (`sin`, `cos`, `atan2`, `sqrt`); its exact values are not
  representable exactly, and none of the properties below depends on them, so
  the distance metric is passed to every function that uses it as a parameter
  `dist : Point → Point → ℚ`.  Concrete instantiations are used where a
  property is evaluated on concrete inputs.
* `calculateZoom` is an external collaborator (imported from `mapPlanner`,
  which is not part of this module); it is likewise passed as a parameter
  `zoomf : Bounds → MapSize → ℚ`.
* `calculateBounds` and `calculateCenter` are also imported from `mapPlanner`;
  they are modelled from the spec (§4.4, §6): `calculateBounds` is the min/max
  of latitude/longitude over the points (matching the identical helper
  function that appears in the repository's backend module), and
  `calculateCenter` is the bounding-box midpoint.
* JS `Array.prototype.sort` is a stable sort (ES2019); it is modelled by
  `List.insertionSort` (stable) with the relation `comparator a b ≤ 0`.  For a
  consistent comparator every stable sort produces the same output, so the
  choice is immaterial there; the zone comparator is not transitive, and
  insertion sort is the concrete model used for it.
* JS array indexing `pois[i]` is modelled by `List.getD` with a default for
  the in-engine accesses (which are always in range), and by `l[i]?`
  (`Option`) in `getZonePOIs`, where the source can really produce
  `undefined`.
* The `while (changed)` loop of `mergeSmallClusters` is modelled with
  explicit fuel `cs.length`; each successful merge removes one cluster and a
  list of length ≤ 1 admits no merge, so the fuel is never exhausted (this is
  proved below as `mergeLoop_fixpoint`).
-/

namespace ZonePlanner

/-- A latitude/longitude pair in degrees (the `POILike` shape of the source;
extra fields of caller records are never inspected by the engine). -/
structure Point where
  lat : ℚ
  lng : ℚ
deriving DecidableEq

instance : Inhabited Point := ⟨⟨0, 0⟩⟩

/-- A geographic bounding box, as in the source `Bounds` type. -/
@[ext]
structure Bounds where
  north : ℚ
  south : ℚ
  east : ℚ
  west : ℚ
deriving DecidableEq

/-- Map viewport size, used only by the external zoom calculator. -/
structure MapSize where
  width : ℚ
  height : ℚ
deriving DecidableEq

/-- The fully-resolved configuration (`Required<ZoneConfig>` in the source;
the spread of `DEFAULT_CONFIG` with the caller's partial options is modelled
as this already-merged record). -/
structure ZoneConfig where
  minPoisPerZone : ℕ
  maxPoisPerZone : ℕ
  clusterRadiusMeters : ℚ
  mapSize : MapSize
deriving DecidableEq

/-- A planned zone, as in the source `Zone` interface. -/
structure Zone where
  id : String
  poiIndices : List ℕ
  bounds : Bounds
  center : Point
  zoom : ℚ
deriving DecidableEq

/-- `DEFAULT_CONFIG` from the source. -/
def DEFAULT_CONFIG : ZoneConfig :=
  { minPoisPerZone := 3
    maxPoisPerZone := 10
    clusterRadiusMeters := 1000
    mapSize := { width := 400, height := 600 } }

/-- JS indexing `pois[index]` for the engine-internal accesses, which are
always in range (indices come from `range pois.length`). -/
def getPoi (pois : List Point) (i : ℕ) : Point :=
  pois.getD i default

/-- The index array `pois.map((_, i) => i).sort((a, b) => pois[b].lat - pois[a].lat)`
of `clusterPOIs`: all indices, sorted by latitude descending (stable). -/
def sortedIndices (pois : List Point) : List ℕ :=
  List.insertionSort (fun a b => (getPoi pois b).lat ≤ (getPoi pois a).lat)
    (List.range pois.length)

/-- One iteration of the seed loop body of `clusterPOIs`: the cluster grown
from `seed`.  The candidate scan filters the full sorted index list for
unassigned indices within `clusterRadiusMeters` of the seed (the seed itself
has just been marked assigned), sorts them by distance ascending (stable) and
appends until the cluster reaches `maxPoisPerZone` (the cluster already holds
the seed, hence `take (maxPoisPerZone - 1)`; for `maxPoisPerZone = 0` the
source loop also stops at once, matching `ℕ` subtraction). -/
def mkCluster (dist : Point → Point → ℚ) (pois : List Point) (cfg : ZoneConfig)
    (all assigned : List ℕ) (seed : ℕ) : List ℕ :=
  seed ::
    (List.insertionSort
        (fun a b =>
          dist (getPoi pois seed) (getPoi pois a) ≤ dist (getPoi pois seed) (getPoi pois b))
        (all.filter fun c =>
          decide (c ∉ seed :: assigned ∧
            dist (getPoi pois seed) (getPoi pois c) ≤ cfg.clusterRadiusMeters))).take
      (cfg.maxPoisPerZone - 1)

/-- The seed loop of `clusterPOIs`: iterate over the sorted index list,
skipping already-assigned indices, opening a new cluster for each unassigned
seed.  `all` is the full sorted index list (scanned for candidates),
`order` the remaining portion being iterated, `assigned` the assigned set
(a list, playing the role of the source's `Set`). -/
def greedyClusters (dist : Point → Point → ℚ) (pois : List Point) (cfg : ZoneConfig)
    (all : List ℕ) : List ℕ → List ℕ → List (List ℕ)
  | [], _ => []
  | s :: rest, assigned =>
    if s ∈ assigned then greedyClusters dist pois cfg all rest assigned
    else
      mkCluster dist pois cfg all assigned s ::
        greedyClusters dist pois cfg all rest (assigned ++ mkCluster dist pois cfg all assigned s)

/-- `getClusterCenter` of `mergeSmallClusters`: arithmetic mean of member
latitudes and longitudes. -/
def getClusterCenter (pois : List Point) (c : List ℕ) : Point :=
  { lat := (c.map fun i => (getPoi pois i).lat).sum / (c.length : ℚ)
    lng := (c.map fun i => (getPoi pois i).lng).sum / (c.length : ℚ) }

/-- The body of the inner `j` loop of `mergeSmallClusters`, threading the
accumulator `(bestMergeIndex, bestDistance)` (`none` models the initial
`(-1, Infinity)` state, in which any distance passes the
`distance < bestDistance` test). -/
def bestMergeStep (dist : Point → Point → ℚ) (pois : List Point) (cfg : ZoneConfig)
    (cs : List (List ℕ)) (i : ℕ) (acc : Option (ℕ × ℚ)) (j : ℕ) : Option (ℕ × ℚ) :=
  if j = i then acc
  else if cfg.maxPoisPerZone < (cs.getD i []).length + (cs.getD j []).length then acc
  else
    match acc with
    | none =>
      if dist (getClusterCenter pois (cs.getD i [])) (getClusterCenter pois (cs.getD j [])) ≤
          cfg.clusterRadiusMeters * 3 then
        some (j, dist (getClusterCenter pois (cs.getD i [])) (getClusterCenter pois (cs.getD j [])))
      else none
    | some (bj, bd) =>
      if dist (getClusterCenter pois (cs.getD i [])) (getClusterCenter pois (cs.getD j [])) < bd ∧
          dist (getClusterCenter pois (cs.getD i [])) (getClusterCenter pois (cs.getD j [])) ≤
            cfg.clusterRadiusMeters * 3 then
        some (j, dist (getClusterCenter pois (cs.getD i [])) (getClusterCenter pois (cs.getD j [])))
      else some (bj, bd)

/-- The inner `j` loop of `mergeSmallClusters`: the best merge partner for
cluster `i`, with its centroid distance, or `none` if no cluster is eligible
(`maxMergeDistance` is `clusterRadiusMeters * 3` as in the source). -/
def bestMergeIndex (dist : Point → Point → ℚ) (pois : List Point) (cfg : ZoneConfig)
    (cs : List (List ℕ)) (i : ℕ) : Option (ℕ × ℚ) :=
  (List.range cs.length).foldl (bestMergeStep dist pois cfg cs i) none

/-- The outer `i` loop of one pass of `mergeSmallClusters`: scan for the first
undersized cluster that has an eligible merge partner. -/
def findMergeAux (dist : Point → Point → ℚ) (pois : List Point) (cfg : ZoneConfig)
    (cs : List (List ℕ)) : List ℕ → Option (ℕ × ℕ)
  | [] => none
  | i :: rest =>
    if cfg.minPoisPerZone ≤ (cs.getD i []).length then findMergeAux dist pois cfg cs rest
    else
      match bestMergeIndex dist pois cfg cs i with
      | some (j, _) => some (i, j)
      | none => findMergeAux dist pois cfg cs rest

/-- One full pass of the `while (changed)` loop, up to the `break`. -/
def findMerge (dist : Point → Point → ℚ) (pois : List Point) (cfg : ZoneConfig)
    (cs : List (List ℕ)) : Option (ℕ × ℕ) :=
  findMergeAux dist pois cfg cs (List.range cs.length)

/-- One iteration of the `while (changed)` loop: perform the first merge found
(`workingClusters[i] = [...i, ...j]` then `splice(j, 1)`), or report that a
full pass made no merge (`none`). -/
def mergeStep (dist : Point → Point → ℚ) (pois : List Point) (cfg : ZoneConfig)
    (cs : List (List ℕ)) : Option (List (List ℕ)) :=
  match findMerge dist pois cfg cs with
  | none => none
  | some (i, j) => some ((cs.set i ((cs.getD i []) ++ (cs.getD j []))).eraseIdx j)

/-- The `while (changed)` loop with explicit fuel (see header note). -/
def mergeLoop (dist : Point → Point → ℚ) (pois : List Point) (cfg : ZoneConfig) :
    ℕ → List (List ℕ) → List (List ℕ)
  | 0, cs => cs
  | fuel + 1, cs =>
    match mergeStep dist pois cfg cs with
    | none => cs
    | some cs' => mergeLoop dist pois cfg fuel cs'

/-- `mergeSmallClusters` from the source: return unchanged when at most one
cluster exists, otherwise run the merge loop to its fixed point. -/
def mergeSmallClusters (dist : Point → Point → ℚ) (pois : List Point) (cfg : ZoneConfig)
    (cs : List (List ℕ)) : List (List ℕ) :=
  if cs.length ≤ 1 then cs else mergeLoop dist pois cfg cs.length cs

/-- `clusterPOIs` from the source: empty input gives no clusters; otherwise
greedy clustering over the latitude-sorted index list, post-processed by
`mergeSmallClusters`. -/
def clusterPOIs (dist : Point → Point → ℚ) (pois : List Point) (cfg : ZoneConfig) :
    List (List ℕ) :=
  if pois.length = 0 then []
  else
    mergeSmallClusters dist pois cfg
      (greedyClusters dist pois cfg (sortedIndices pois) (sortedIndices pois) [])

/-- `calculateBounds` (modelled from the spec §4.4/§6; the engine imports it
from `mapPlanner`, and an identical helper appears in the repository's
backend): min/max latitude/longitude over the points.  The source initializes
the fold with `±Infinity` and scans every point; after the first point the
accumulator is exactly that point's coordinates, so for a nonempty list the
fold below is the same computation.  The engine only ever applies it to
nonempty lists; the `[]` value stands in for the source's infinite bounds. -/
def boundsUnion (b : Bounds) (q : Point) : Bounds :=
  { north := max b.north q.lat
    south := min b.south q.lat
    east := max b.east q.lng
    west := min b.west q.lng }

def calculateBounds : List Point → Bounds
  | [] => ⟨0, 0, 0, 0⟩
  | p :: rest => rest.foldl boundsUnion ⟨p.lat, p.lat, p.lng, p.lng⟩

/-- Modelled from the spec: `calculateCenter` of `mapPlanner` (not part of
this module's sources) is the bounding-box midpoint (§6: "midpoint, not
centroid"). -/
def calculateCenter (b : Bounds) : Point :=
  { lat := (b.north + b.south) / 2
    lng := (b.east + b.west) / 2 }

/-- The cluster→zone conversion inside `planZones` (before the final sort):
resolve member points, compute bounds/center/zoom, id by position. -/
def zoneOfCluster (zoomf : Bounds → MapSize → ℚ) (pois : List Point) (cfg : ZoneConfig)
    (index : ℕ) (c : List ℕ) : Zone :=
  { id := "zone-" ++ toString index
    poiIndices := c
    bounds := calculateBounds (c.map (getPoi pois))
    center := calculateCenter (calculateBounds (c.map (getPoi pois)))
    zoom := zoomf (calculateBounds (c.map (getPoi pois))) cfg.mapSize }

/-- The zone sort comparator of `planZones`, as the relation
`comparator a b ≤ 0`: if the norths differ by more than 0.01 the more
northern zone comes first, otherwise the more western zone comes first. -/
def zoneLE (a b : Zone) : Prop :=
  if 1 / 100 < |a.bounds.north - b.bounds.north| then b.bounds.north ≤ a.bounds.north
  else a.bounds.west ≤ b.bounds.west

instance : DecidableRel zoneLE := fun a b => by
  unfold zoneLE
  infer_instance

/-- `planZones` from the source: cluster, build zones, sort, re-assign ids. -/
def planZones (dist : Point → Point → ℚ) (zoomf : Bounds → MapSize → ℚ)
    (pois : List Point) (cfg : ZoneConfig) : List Zone :=
  if pois.length = 0 then []
  else
    (List.insertionSort zoneLE
        ((clusterPOIs dist pois cfg).enum.map fun ic =>
          zoneOfCluster zoomf pois cfg ic.1 ic.2)).enum.map
      fun iz => { iz.2 with id := "zone-" ++ toString iz.1 }

/-- `getZonePOIs` from the source: `zone.poiIndices.map((i) => pois[i])`.
JS indexing out of range yields `undefined`, modelled by `Option`. -/
def getZonePOIs {T : Type} (pois : List T) (zone : Zone) : List (Option T) :=
  zone.poiIndices.map fun i => pois[i]?

/-- The fold body of `calculateOverallBounds`. -/
def boundsJoin (b : Bounds) (z : Zone) : Bounds :=
  { north := max b.north z.bounds.north
    south := min b.south z.bounds.south
    east := max b.east z.bounds.east
    west := min b.west z.bounds.west }

/-- `calculateOverallBounds` from the source: `null` for an empty zone list,
otherwise the extremes over all zones' bounds (the source starts its fold at
`±Infinity`; after the first zone the accumulator is that zone's bounds, so
for a nonempty list the fold below is the same computation). -/
def calculateOverallBounds : List Zone → Option Bounds
  | [] => none
  | z :: rest => some (rest.foldl boundsJoin z.bounds)

/-- The per-pair display-order property stated by the spec for the output of
`planZones`: the earlier zone is either strictly more northern by more than
0.01 degrees, or in the same 0.01-degree "row" and no further east. -/
def zonePairProp (a b : Zone) : Prop :=
  b.bounds.north + 1 / 100 < a.bounds.north ∨
    (|a.bounds.north - b.bounds.north| ≤ 1 / 100 ∧ a.bounds.west ≤ b.bounds.west)

instance : DecidableRel zonePairProp := fun a b => by
  unfold zonePairProp
  infer_instance

/-- Proof helper: one step of an `Option`-valued extremum fold (`none` is the
"not yet seen a value" state, mirroring the `±Infinity` initializers). -/
def ostep (f : ℚ → ℚ → ℚ) (acc : Option ℚ) (q : ℚ) : Option ℚ :=
  match acc with
  | none => some q
  | some m => some (f m q)

/-- Proof helper: extremum of a rational list under `f`, `none` when empty. -/
def ofold (f : ℚ → ℚ → ℚ) (l : List ℚ) : Option ℚ :=
  l.foldl (ostep f) none

/-- Proof helper: extremum of a nonempty rational list under `f` (junk `0`
for the empty list, which is never used). -/
def listExtreme (f : ℚ → ℚ → ℚ) : List ℚ → ℚ
  | [] => 0
  | x :: xs => xs.foldl f x

/-- Concrete zoom calculator used when a property is evaluated on concrete
inputs (the external zoom formula is irrelevant to every property below). -/
def exZoom : Bounds → MapSize → ℚ := fun _ _ => 0

/-- Concrete distance stand-in: every distance is 1 000 000 m (far beyond
the default radius 1000 m and merge limit 3000 m, like the real great-circle
distances between the widely separated fixture points below). -/
def exDistFar : Point → Point → ℚ := fun _ _ => 1000000

/-- A config with `minPoisPerZone = 1` (trivially satisfied, so the
rebalancer finds nothing to merge) and the default remaining options. -/
def cfgC3 : ZoneConfig :=
  { minPoisPerZone := 1
    maxPoisPerZone := 10
    clusterRadiusMeters := 1000
    mapSize := { width := 400, height := 600 } }

/-- Concrete distance stand-in: every pair of points is 10 m apart (the
two-point fixtures below use two distinct points, so only the value on that
one pair matters). -/
def exDist10 : Point → Point → ℚ := fun _ _ => 10

/-- Three points on three different latitudes whose norths are pairwise
within 0.018°: latitudes 0°, 0.009° and 0.018°, far apart in longitude. -/
def exPois3 : List Point := [⟨0, 0⟩, ⟨9 / 1000, 1⟩, ⟨18 / 1000, 2⟩]

/-- Two points, the second strictly more northern than the first. -/
def exPois2 : List Point := [⟨0, 0⟩, ⟨1, 0⟩]

/-- A zone record holding an out-of-range index 5 (as a zone planned from a
longer points list would), for evaluating `getZonePOIs`. -/
def exZone : Zone :=
  { id := "zone-0", poiIndices := [0, 5], bounds := ⟨0, 0, 0, 0⟩, center := ⟨0, 0⟩, zoom := 0 }

/-- Statement helper: the centroid-to-centroid distance between clusters `i`
and `k` used by the rebalancer (`haversineDistance(centerI…, centerJ…)`). -/
def centroidDist (dist : Point → Point → ℚ) (pois : List Point) (cs : List (List ℕ))
    (i k : ℕ) : ℚ :=
  dist (getClusterCenter pois (cs.getD i [])) (getClusterCenter pois (cs.getD k []))

/-- Statement helper: cluster `k` is an eligible merge partner for cluster
`i`, i.e. it passes the three guards of the inner rebalancer loop: `k ≠ i`
(`i === j continue`), combined size within `maxPoisPerZone`, and centroid
distance within `maxMergeDistance = clusterRadiusMeters * 3`. -/
def mergeElig (dist : Point → Point → ℚ) (pois : List Point) (cfg : ZoneConfig)
    (cs : List (List ℕ)) (i k : ℕ) : Prop :=
  k ≠ i ∧ (cs.getD i []).length + (cs.getD k []).length ≤ cfg.maxPoisPerZone ∧
    centroidDist dist pois cs i k ≤ cfg.clusterRadiusMeters * 3

/-! ## General list lemmas used by the development -/

lemma enum_map_snd_comp {α β : Type} (l : List α) (h : α → β) :
    l.enum.map (fun ic => h ic.2) = l.map h := by
  have he : (fun ic : ℕ × α => h ic.2) = h ∘ Prod.snd := rfl
  rw [he, ← List.map_map, List.enum_map_snd]

lemma foldl_perm_rc {α β : Type} (g : β → α → β)
    (hg : ∀ b x y, g (g b x) y = g (g b y) x) :
    ∀ {l₁ l₂ : List α}, l₁.Perm l₂ → ∀ b, List.foldl g b l₁ = List.foldl g b l₂ := by
  intro l₁ l₂ h
  induction h with
  | nil => intro b; rfl
  | cons x _ ih => intro b; simpa using ih _
  | swap x y l => intro b; simp [hg]
  | trans _ _ ih₁ ih₂ => intro b; rw [ih₁, ih₂]

lemma perm_of_nodup_of_mem_iff {α : Type} {l₁ l₂ : List α} (h₁ : l₁.Nodup)
    (h₂ : l₂.Nodup) (h : ∀ x, x ∈ l₁ ↔ x ∈ l₂) : l₁.Perm l₂ :=
  (List.subperm_of_subset h₁ fun x hx => (h x).1 hx).antisymm
    (List.subperm_of_subset h₂ fun x hx => (h x).2 hx)

lemma filter_decide_congr {α : Type} (l : List α) (p q : α → Prop)
    [DecidablePred p] [DecidablePred q] (h : ∀ x ∈ l, p x ↔ q x) :
    (l.filter fun x => decide (p x)) = l.filter fun x => decide (q x) :=
  List.filter_congr fun x hx => decide_eq_decide.mpr (h x hx)

lemma filter_split_perm {α : Type} [DecidableEq α] (l : List α) (p : α → Prop)
    [DecidablePred p] (B : List α) :
    (l.filter fun x => decide (p x)).Perm
      ((l.filter fun x => decide (p x ∧ x ∈ B)) ++ l.filter fun x => decide (p x ∧ x ∉ B)) := by
  have h := (List.filter_append_perm (fun x => decide (x ∈ B))
    (l.filter fun x => decide (p x))).symm
  rw [List.filter_filter, List.filter_filter] at h
  have e₁ : (l.filter fun x => decide (p x ∧ x ∈ B)) =
      l.filter fun x => decide (x ∈ B) && decide (p x) :=
    List.filter_congr fun x _ => by by_cases hp : p x <;> by_cases hb : x ∈ B <;> simp [hp, hb]
  have e₂ : (l.filter fun x => decide (p x ∧ x ∉ B)) =
      l.filter fun x => !decide (x ∈ B) && decide (p x) :=
    List.filter_congr fun x _ => by by_cases hp : p x <;> by_cases hb : x ∈ B <;> simp [hp, hb]
  rw [e₁, e₂]
  exact h

/-- Insertion into a `Chain'`-ordered list for a total (not necessarily
transitive) relation keeps adjacent pairs ordered. -/
lemma chain'_orderedInsert {α : Type} (r : α → α → Prop) [DecidableRel r]
    (total : ∀ a b, r a b ∨ r b a) (a : α) :
    ∀ l : List α, List.Chain' r l → List.Chain' r (l.orderedInsert r a)
  | [], _ => List.chain'_singleton a
  | b :: t, hch => by
    rw [List.orderedInsert]
    by_cases hab : r a b
    · rw [if_pos hab]
      exact hch.cons hab
    · rw [if_neg hab]
      have hba : r b a := (total a b).resolve_left hab
      have hcht : List.Chain' r t := hch.tail
      have hrec := chain'_orderedInsert r total a t hcht
      rcases t with _ | ⟨c, t'⟩
      · exact List.chain'_pair.mpr hba
      · rw [List.chain'_cons']
        refine ⟨?_, hrec⟩
        intro y hy
        rw [List.orderedInsert] at hy
        by_cases hac : r a c
        · rw [if_pos hac] at hy
          simp only [List.head?_cons, Option.mem_def, Option.some.injEq] at hy
          exact hy ▸ hba
        · rw [if_neg hac] at hy
          simp only [List.head?_cons, Option.mem_def, Option.some.injEq] at hy
          exact hy ▸ (List.chain'_cons.mp hch).1

/-- Insertion sort with a total (not necessarily transitive) relation yields
a list whose adjacent pairs are related. -/
lemma chain'_insertionSort {α : Type} (r : α → α → Prop) [DecidableRel r]
    (total : ∀ a b, r a b ∨ r b a) :
    ∀ l : List α, List.Chain' r (List.insertionSort r l)
  | [] => List.chain'_nil
  | b :: l => by
    rw [List.insertionSort]
    exact chain'_orderedInsert r total b _ (chain'_insertionSort r total l)

/-! ## Greedy clustering stage -/

lemma mkCluster_eq_cons (dist : Point → Point → ℚ) (pois : List Point) (cfg : ZoneConfig)
    (all assigned : List ℕ) (seed : ℕ) :
    ∃ B, mkCluster dist pois cfg all assigned seed = seed :: B ∧
      (∀ x ∈ B, x ∈ all ∧ x ∉ assigned ∧ x ≠ seed) ∧ (all.Nodup → B.Nodup) := by
  refine ⟨_, rfl, ?_, ?_⟩
  · intro x hx
    have hx₁ := List.mem_of_mem_take hx
    have hx₂ := (List.perm_insertionSort _ _).mem_iff.mp hx₁
    rw [List.mem_filter] at hx₂
    obtain ⟨hall, hcond⟩ := hx₂
    rw [decide_eq_true_eq] at hcond
    obtain ⟨hnotin, -⟩ := hcond
    rw [List.mem_cons] at hnotin
    push_neg at hnotin
    exact ⟨hall, hnotin.2, hnotin.1⟩
  · intro hall
    refine List.Nodup.sublist (List.take_sublist _ _) ?_
    exact ((List.perm_insertionSort _ _).nodup_iff).mpr (hall.filter _)

lemma mem_mkCluster (dist : Point → Point → ℚ) (pois : List Point) (cfg : ZoneConfig)
    (all assigned : List ℕ) (seed : ℕ) {x : ℕ}
    (hx : x ∈ mkCluster dist pois cfg all assigned seed) :
    x = seed ∨ (x ∈ all ∧ x ∉ assigned ∧ x ≠ seed) := by
  obtain ⟨B, hB, hmem, -⟩ := mkCluster_eq_cons dist pois cfg all assigned seed
  rw [hB, List.mem_cons] at hx
  exact hx.imp_right (hmem x)

lemma mkCluster_nodup (dist : Point → Point → ℚ) (pois : List Point) (cfg : ZoneConfig)
    (all assigned : List ℕ) (seed : ℕ) (hall : all.Nodup) :
    (mkCluster dist pois cfg all assigned seed).Nodup := by
  obtain ⟨B, hB, hmem, hnd⟩ := mkCluster_eq_cons dist pois cfg all assigned seed
  rw [hB, List.nodup_cons]
  exact ⟨fun hs => (hmem seed hs).2.2 rfl, hnd hall⟩

lemma mkCluster_length (dist : Point → Point → ℚ) (pois : List Point) (cfg : ZoneConfig)
    (all assigned : List ℕ) (seed : ℕ) (hmax : 1 ≤ cfg.maxPoisPerZone) :
    1 ≤ (mkCluster dist pois cfg all assigned seed).length ∧
      (mkCluster dist pois cfg all assigned seed).length ≤ cfg.maxPoisPerZone := by
  constructor
  · simp [mkCluster]
  · have h := List.length_take_le (cfg.maxPoisPerZone - 1)
      (List.insertionSort
        (fun a b =>
          dist (getPoi pois seed) (getPoi pois a) ≤ dist (getPoi pois seed) (getPoi pois b))
        (all.filter fun c =>
          decide (c ∉ seed :: assigned ∧
            dist (getPoi pois seed) (getPoi pois c) ≤ cfg.clusterRadiusMeters)))
    rw [mkCluster, List.length_cons]
    omega

/-- The greedy seed loop partitions the still-unassigned indices: the
concatenation of its clusters is a permutation of the portion of `order`
that is not yet assigned. -/
lemma greedyClusters_flatten_perm (dist : Point → Point → ℚ) (pois : List Point)
    (cfg : ZoneConfig) (all : List ℕ) (hall : all.Nodup) :
    ∀ order assigned : List ℕ, order.Nodup →
      (∀ x ∈ order, x ∈ all) →
      (∀ x ∈ all, x ∉ assigned → x ∈ order) →
      (greedyClusters dist pois cfg all order assigned).flatten.Perm
        (order.filter fun x => decide (x ∉ assigned)) := by
  intro order
  induction order with
  | nil => intro assigned _ _ _; simp [greedyClusters]
  | cons s rest ih =>
    intro assigned hno hsub hcover
    rw [List.nodup_cons] at hno
    by_cases hs : s ∈ assigned
    · rw [greedyClusters, if_pos hs]
      have hfil : ((s :: rest).filter fun x => decide (x ∉ assigned)) =
          rest.filter fun x => decide (x ∉ assigned) := by
        rw [List.filter_cons]
        simp [hs]
      rw [hfil]
      refine ih assigned hno.2 (fun x hx => hsub x (List.mem_cons_of_mem s hx)) ?_
      intro x hxall hxn
      rcases List.mem_cons.mp (hcover x hxall hxn) with h | h
      · exact absurd (h ▸ hs) hxn
      · exact h
    · rw [greedyClusters, if_neg hs]
      obtain ⟨B, hB, hBmem, hBnd⟩ := mkCluster_eq_cons dist pois cfg all assigned s
      have hBsub : ∀ x ∈ B, x ∈ rest := by
        intro x hx
        obtain ⟨hxall, hxna, hxs⟩ := hBmem x hx
        rcases List.mem_cons.mp (hcover x hxall hxna) with h | h
        · exact absurd h hxs
        · exact h
      have hIH := ih (assigned ++ mkCluster dist pois cfg all assigned s) hno.2
        (fun x hx => hsub x (List.mem_cons_of_mem s hx)) ?_
      swap
      · intro x hxall hxn
        rw [List.mem_append] at hxn
        push_neg at hxn
        have hsmem : s ∈ mkCluster dist pois cfg all assigned s := by
          rw [hB]
          exact List.mem_cons_self s B
        rcases List.mem_cons.mp (hcover x hxall hxn.1) with h | h
        · subst h
          exact absurd hsmem hxn.2
        · exact h
      rw [List.flatten_cons]
      have hfil : ((s :: rest).filter fun x => decide (x ∉ assigned)) =
          s :: (rest.filter fun x => decide (x ∉ assigned)) := by
        rw [List.filter_cons]
        simp [hs]
      rw [hfil, hB, List.cons_append]
      refine List.Perm.cons s ?_
      have hq : (rest.filter fun x =>
            decide (x ∉ assigned ++ mkCluster dist pois cfg all assigned s)) =
          rest.filter fun x => decide (x ∉ assigned ∧ x ∉ B) := by
        refine filter_decide_congr rest _ _ ?_
        intro x hx
        have hxs : x ≠ s := fun he => hno.1 (he ▸ hx)
        rw [hB]
        simp only [List.mem_append, List.mem_cons]
        constructor
        · intro h
          push_neg at h
          exact ⟨h.1, h.2.2⟩
        · intro h
          push_neg
          exact ⟨h.1, hxs, h.2⟩
      have hsplit := filter_split_perm rest (fun x => x ∉ assigned) B
      have hpart : (rest.filter fun x => decide (x ∉ assigned ∧ x ∈ B)).Perm B := by
        refine perm_of_nodup_of_mem_iff (hno.2.filter _) (hBnd hall) ?_
        intro x
        rw [List.mem_filter, decide_eq_true_eq]
        constructor
        · exact fun h => h.2.2
        · intro h
          exact ⟨hBsub x h, (hBmem x h).2.1, h⟩
      rw [hB] at hIH hq
      exact ((List.Perm.append_left B (hq ▸ hIH)).trans
        (List.Perm.append_right _ hpart.symm)).trans hsplit.symm

/-! ## Rebalancing stage: permutation bookkeeping for set + eraseIdx -/

lemma flatten_eraseIdx_perm {α : Type} :
    ∀ (t : List (List α)) (k : ℕ), k < t.length →
      (t.getD k [] ++ (t.eraseIdx k).flatten).Perm t.flatten
  | [], k, hk => absurd hk (by simp)
  | c :: t, 0, _ => by simp [List.Perm.refl]
  | c :: t, k + 1, hk => by
    have ih := flatten_eraseIdx_perm t k (by simpa using hk)
    simp only [List.getD_cons_succ, List.eraseIdx_cons_succ, List.flatten_cons]
    have h1 : (t.getD k [] ++ (c ++ (t.eraseIdx k).flatten)).Perm
        (c ++ (t.getD k [] ++ (t.eraseIdx k).flatten)) := by
      rw [← List.append_assoc, ← List.append_assoc]
      exact List.Perm.append_right _ List.perm_append_comm
    exact h1.trans (List.Perm.append_left c ih)

lemma flatten_set_append_perm {α : Type} :
    ∀ (t : List (List α)) (k : ℕ), k < t.length → ∀ b : List α,
      ((t.set k (t.getD k [] ++ b)).flatten).Perm (b ++ t.flatten)
  | [], k, hk, _ => absurd hk (by simp)
  | c :: t, 0, _, b => by
    simp only [List.getD_cons_zero, List.set_cons_zero, List.flatten_cons]
    rw [← List.append_assoc]
    exact List.Perm.append_right _ List.perm_append_comm
  | c :: t, k + 1, hk, b => by
    have ih := flatten_set_append_perm t k (by simpa using hk) b
    simp only [List.getD_cons_succ, List.set_cons_succ, List.flatten_cons]
    refine (List.Perm.append_left c ih).trans ?_
    rw [← List.append_assoc, ← List.append_assoc]
    exact List.Perm.append_right _ List.perm_append_comm

/-- Merging cluster `j` into cluster `i` and removing slot `j` preserves the
multiset of member indices. -/
lemma flatten_set_eraseIdx_perm {α : Type} :
    ∀ (cs : List (List α)) (i j : ℕ), i ≠ j → i < cs.length → j < cs.length →
      (((cs.set i (cs.getD i [] ++ cs.getD j [])).eraseIdx j).flatten).Perm cs.flatten
  | [], _, _, _, hi, _ => absurd hi (by simp)
  | _ :: _, 0, 0, hij, _, _ => absurd rfl hij
  | c :: t, 0, m + 1, _, _, hj => by
    simp only [List.getD_cons_zero, List.getD_cons_succ, List.set_cons_zero,
      List.eraseIdx_cons_succ, List.flatten_cons]
    rw [List.append_assoc]
    exact List.Perm.append_left c (flatten_eraseIdx_perm t m (by simpa using hj))
  | c :: t, k + 1, 0, _, hk, _ => by
    simp only [List.getD_cons_succ, List.getD_cons_zero, List.set_cons_succ,
      List.eraseIdx_cons_zero, List.flatten_cons]
    exact flatten_set_append_perm t k (by simpa using hk) c
  | c :: t, k + 1, m + 1, hij, hk, hm => by
    have ih := flatten_set_eraseIdx_perm t k m (by omega) (by simpa using hk)
      (by simpa using hm)
    simp only [List.getD_cons_succ, List.set_cons_succ, List.eraseIdx_cons_succ,
      List.flatten_cons]
    exact List.Perm.append_left c ih

/-! ## Rebalancing stage: the best-partner scan -/

/-- Invariant of the inner `j` fold of `mergeSmallClusters`: a `none`
accumulator means no scanned cluster was eligible; a `some (j, d)`
accumulator holds an eligible scanned cluster of minimal centroid distance
(first such cluster among ties, by the strict `distance < bestDistance`
test). -/
lemma bestMergeFold_invariant (dist : Point → Point → ℚ) (pois : List Point)
    (cfg : ZoneConfig) (cs : List (List ℕ)) (i : ℕ) :
    ∀ (js seen : List ℕ) (acc : Option (ℕ × ℚ)),
      (acc = none → ∀ k ∈ seen, ¬ mergeElig dist pois cfg cs i k) →
      (∀ j d, acc = some (j, d) → j ∈ seen ∧ mergeElig dist pois cfg cs i j ∧
        d = centroidDist dist pois cs i j ∧
        ∀ k ∈ seen, mergeElig dist pois cfg cs i k → d ≤ centroidDist dist pois cs i k) →
      ((js.foldl (bestMergeStep dist pois cfg cs i) acc = none →
          ∀ k ∈ seen ++ js, ¬ mergeElig dist pois cfg cs i k) ∧
        ∀ j d, js.foldl (bestMergeStep dist pois cfg cs i) acc = some (j, d) →
          j ∈ seen ++ js ∧ mergeElig dist pois cfg cs i j ∧
          d = centroidDist dist pois cs i j ∧
          ∀ k ∈ seen ++ js, mergeElig dist pois cfg cs i k →
            d ≤ centroidDist dist pois cs i k) := by
  intro js
  induction js with
  | nil =>
    intro seen acc h1 h2
    constructor
    · intro h k hk
      exact h1 h k (by simpa using hk)
    · intro j d h
      obtain ⟨hj, he, hd, hmin⟩ := h2 j d h
      exact ⟨by simpa using hj, he, hd, fun k hk => hmin k (by simpa using hk)⟩
  | cons j₀ js ih =>
    intro seen acc h1 h2
    rw [List.foldl_cons]
    have hmem : ∀ k : ℕ, k ∈ seen ++ [j₀] → k ∈ seen ∨ k = j₀ := by
      intro k hk
      simpa using hk
    suffices key : (bestMergeStep dist pois cfg cs i acc j₀ = none →
        ∀ k ∈ seen ++ [j₀], ¬ mergeElig dist pois cfg cs i k) ∧
        ∀ j d, bestMergeStep dist pois cfg cs i acc j₀ = some (j, d) →
          j ∈ seen ++ [j₀] ∧ mergeElig dist pois cfg cs i j ∧
          d = centroidDist dist pois cs i j ∧
          ∀ k ∈ seen ++ [j₀], mergeElig dist pois cfg cs i k →
            d ≤ centroidDist dist pois cs i k by
      have hih := ih (seen ++ [j₀]) (bestMergeStep dist pois cfg cs i acc j₀) key.1 key.2
      rw [List.append_assoc, List.singleton_append] at hih
      exact hih
    rcases acc with _ | ⟨bj, bd⟩
    · by_cases hji : j₀ = i
      · have hs : bestMergeStep dist pois cfg cs i none j₀ = none := by
          simp only [bestMergeStep]
          rw [if_pos hji]
        rw [hs]
        refine ⟨?_, fun j d h => by cases h⟩
        intro _ k hk
        rcases hmem k hk with hk' | rfl
        · exact h1 rfl k hk'
        · exact fun he => he.1 hji
      · by_cases hsz : cfg.maxPoisPerZone < (cs.getD i []).length + (cs.getD j₀ []).length
        · have hs : bestMergeStep dist pois cfg cs i none j₀ = none := by
            simp only [bestMergeStep]
            rw [if_neg hji, if_pos hsz]
          rw [hs]
          refine ⟨?_, fun j d h => by cases h⟩
          intro _ k hk
          rcases hmem k hk with hk' | rfl
          · exact h1 rfl k hk'
          · exact fun he => absurd he.2.1 (by omega)
        · by_cases hd : dist (getClusterCenter pois (cs.getD i []))
              (getClusterCenter pois (cs.getD j₀ [])) ≤ cfg.clusterRadiusMeters * 3
          · have hs : bestMergeStep dist pois cfg cs i none j₀ =
                some (j₀, dist (getClusterCenter pois (cs.getD i []))
                  (getClusterCenter pois (cs.getD j₀ []))) := by
              simp only [bestMergeStep]
              rw [if_neg hji, if_neg hsz, if_pos hd]
            rw [hs]
            have helig : mergeElig dist pois cfg cs i j₀ := ⟨hji, by omega, hd⟩
            refine ⟨fun h => absurd h (Option.some_ne_none _), ?_⟩
            intro j d h
            rw [Option.some.injEq, Prod.mk.injEq] at h
            obtain ⟨rfl, rfl⟩ := h
            refine ⟨List.mem_append_right _ (by simp), helig, rfl, ?_⟩
            intro k hk hke
            rcases hmem k hk with hk' | rfl
            · exact absurd hke (h1 rfl k hk')
            · exact le_refl _
          · have hs : bestMergeStep dist pois cfg cs i none j₀ = none := by
              simp only [bestMergeStep]
              rw [if_neg hji, if_neg hsz, if_neg hd]
            rw [hs]
            refine ⟨?_, fun j d h => by cases h⟩
            intro _ k hk
            rcases hmem k hk with hk' | rfl
            · exact h1 rfl k hk'
            · exact fun he => hd he.2.2
    · obtain ⟨hbj, hbe, hbd, hbmin⟩ := h2 bj bd rfl
      by_cases hji : j₀ = i
      · have hs : bestMergeStep dist pois cfg cs i (some (bj, bd)) j₀ = some (bj, bd) := by
          simp only [bestMergeStep]
          rw [if_pos hji]
        rw [hs]
        refine ⟨fun h => absurd h (Option.some_ne_none _), ?_⟩
        intro j d h
        rw [Option.some.injEq, Prod.mk.injEq] at h
        obtain ⟨rfl, rfl⟩ := h
        refine ⟨List.mem_append_left _ hbj, hbe, hbd, ?_⟩
        intro k hk hke
        rcases hmem k hk with hk' | rfl
        · exact hbmin k hk' hke
        · exact absurd hji hke.1
      · by_cases hsz : cfg.maxPoisPerZone < (cs.getD i []).length + (cs.getD j₀ []).length
        · have hs : bestMergeStep dist pois cfg cs i (some (bj, bd)) j₀ = some (bj, bd) := by
            simp only [bestMergeStep]
            rw [if_neg hji, if_pos hsz]
          rw [hs]
          refine ⟨fun h => absurd h (Option.some_ne_none _), ?_⟩
          intro j d h
          rw [Option.some.injEq, Prod.mk.injEq] at h
          obtain ⟨rfl, rfl⟩ := h
          refine ⟨List.mem_append_left _ hbj, hbe, hbd, ?_⟩
          intro k hk hke
          rcases hmem k hk with hk' | rfl
          · exact hbmin k hk' hke
          · exact absurd hke.2.1 (by omega)
        · by_cases hcond : dist (getClusterCenter pois (cs.getD i []))
              (getClusterCenter pois (cs.getD j₀ [])) < bd ∧
              dist (getClusterCenter pois (cs.getD i []))
                (getClusterCenter pois (cs.getD j₀ [])) ≤ cfg.clusterRadiusMeters * 3
          · have hs : bestMergeStep dist pois cfg cs i (some (bj, bd)) j₀ =
                some (j₀, dist (getClusterCenter pois (cs.getD i []))
                  (getClusterCenter pois (cs.getD j₀ []))) := by
              simp only [bestMergeStep]
              rw [if_neg hji, if_neg hsz, if_pos hcond]
            rw [hs]
            have helig : mergeElig dist pois cfg cs i j₀ := ⟨hji, by omega, hcond.2⟩
            refine ⟨fun h => absurd h (Option.some_ne_none _), ?_⟩
            intro j d h
            rw [Option.some.injEq, Prod.mk.injEq] at h
            obtain ⟨rfl, rfl⟩ := h
            refine ⟨List.mem_append_right _ (by simp), helig, rfl, ?_⟩
            intro k hk hke
            rcases hmem k hk with hk' | rfl
            · exact le_of_lt (lt_of_lt_of_le hcond.1 (hbmin k hk' hke))
            · exact le_refl _
          · have hs : bestMergeStep dist pois cfg cs i (some (bj, bd)) j₀ = some (bj, bd) := by
              simp only [bestMergeStep]
              rw [if_neg hji, if_neg hsz, if_neg hcond]
            rw [hs]
            refine ⟨fun h => absurd h (Option.some_ne_none _), ?_⟩
            intro j d h
            rw [Option.some.injEq, Prod.mk.injEq] at h
            obtain ⟨rfl, rfl⟩ := h
            refine ⟨List.mem_append_left _ hbj, hbe, hbd, ?_⟩
            intro k hk hke
            rcases hmem k hk with hk' | rfl
            · exact hbmin k hk' hke
            · exact le_of_not_lt fun hlt => hcond ⟨hlt, hke.2.2⟩

/-- What a successful best-partner scan guarantees: the returned cluster is a
distinct, in-range, eligible partner at minimal centroid distance. -/
lemma bestMergeIndex_some (dist : Point → Point → ℚ) (pois : List Point)
    (cfg : ZoneConfig) (cs : List (List ℕ)) (i : ℕ) {j : ℕ} {d : ℚ}
    (h : bestMergeIndex dist pois cfg cs i = some (j, d)) :
    j < cs.length ∧ mergeElig dist pois cfg cs i j ∧ d = centroidDist dist pois cs i j ∧
      ∀ k < cs.length, mergeElig dist pois cfg cs i k → d ≤ centroidDist dist pois cs i k := by
  have hinv := (bestMergeFold_invariant dist pois cfg cs i (List.range cs.length) [] none
    (fun _ k hk => absurd hk (List.not_mem_nil k)) (fun j d hjd => by cases hjd)).2 j d h
  rw [List.nil_append] at hinv
  obtain ⟨hj, he, hd, hmin⟩ := hinv
  exact ⟨List.mem_range.mp hj, he, hd,
    fun k hk hke => hmin k (List.mem_range.mpr hk) hke⟩

/-- A failed best-partner scan means no cluster is eligible. -/
lemma bestMergeIndex_none (dist : Point → Point → ℚ) (pois : List Point)
    (cfg : ZoneConfig) (cs : List (List ℕ)) (i : ℕ)
    (h : bestMergeIndex dist pois cfg cs i = none) :
    ∀ k < cs.length, ¬ mergeElig dist pois cfg cs i k := by
  have hinv := (bestMergeFold_invariant dist pois cfg cs i (List.range cs.length) [] none
    (fun _ k hk => absurd hk (List.not_mem_nil k)) (fun j d hjd => by cases hjd)).1 h
  rw [List.nil_append] at hinv
  exact fun k hk => hinv k (List.mem_range.mpr hk)

lemma findMergeAux_some (dist : Point → Point → ℚ) (pois : List Point)
    (cfg : ZoneConfig) (cs : List (List ℕ)) :
    ∀ (order : List ℕ) (i j : ℕ), findMergeAux dist pois cfg cs order = some (i, j) →
      i ∈ order ∧ (cs.getD i []).length < cfg.minPoisPerZone ∧
        ∃ d, bestMergeIndex dist pois cfg cs i = some (j, d) := by
  intro order
  induction order with
  | nil => intro i j h; cases h
  | cons a rest ih =>
    intro i j h
    rw [findMergeAux] at h
    by_cases ha : cfg.minPoisPerZone ≤ (cs.getD a []).length
    · rw [if_pos ha] at h
      obtain ⟨hmem, hlt, d, hd⟩ := ih i j h
      exact ⟨List.mem_cons_of_mem a hmem, hlt, d, hd⟩
    · rw [if_neg ha] at h
      rcases hbm : bestMergeIndex dist pois cfg cs a with _ | ⟨j', d'⟩
      · rw [hbm] at h
        obtain ⟨hmem, hlt, d, hd⟩ := ih i j h
        exact ⟨List.mem_cons_of_mem a hmem, hlt, d, hd⟩
      · rw [hbm] at h
        rw [Option.some.injEq, Prod.mk.injEq] at h
        obtain ⟨rfl, rfl⟩ := h
        exact ⟨List.mem_cons_self a rest, lt_of_not_le ha, d', hbm⟩

lemma findMergeAux_none (dist : Point → Point → ℚ) (pois : List Point)
    (cfg : ZoneConfig) (cs : List (List ℕ)) :
    ∀ order : List ℕ,
      (∀ k ∈ order, (cs.getD k []).length < cfg.minPoisPerZone →
        bestMergeIndex dist pois cfg cs k = none) →
      findMergeAux dist pois cfg cs order = none := by
  intro order
  induction order with
  | nil => intro _; rfl
  | cons a rest ih =>
    intro h
    rw [findMergeAux]
    by_cases ha : cfg.minPoisPerZone ≤ (cs.getD a []).length
    · rw [if_pos ha]
      exact ih fun k hk => h k (List.mem_cons_of_mem a hk)
    · rw [if_neg ha]
      rw [h a (List.mem_cons_self a rest) (lt_of_not_le ha)]
      exact ih fun k hk => h k (List.mem_cons_of_mem a hk)

/-- Decomposition of one successful iteration of the merge loop. -/
lemma mergeStep_some (dist : Point → Point → ℚ) (pois : List Point) (cfg : ZoneConfig)
    {cs cs' : List (List ℕ)} (h : mergeStep dist pois cfg cs = some cs') :
    ∃ i j, i < cs.length ∧ j < cs.length ∧ j ≠ i ∧
      (cs.getD i []).length + (cs.getD j []).length ≤ cfg.maxPoisPerZone ∧
      (cs.getD i []).length < cfg.minPoisPerZone ∧
      cs' = (cs.set i ((cs.getD i []) ++ (cs.getD j []))).eraseIdx j := by
  rw [mergeStep] at h
  rcases hfm : findMerge dist pois cfg cs with _ | ⟨i, j⟩
  · rw [hfm] at h
    cases h
  · rw [hfm] at h
    rw [Option.some.injEq] at h
    obtain ⟨hmem, hlt, d, hd⟩ := findMergeAux_some dist pois cfg cs (List.range cs.length) i j hfm
    obtain ⟨hj, he, -, -⟩ := bestMergeIndex_some dist pois cfg cs i hd
    exact ⟨i, j, List.mem_range.mp hmem, hj, he.1, he.2.1, hlt, h.symm⟩

lemma mergeStep_length (dist : Point → Point → ℚ) (pois : List Point) (cfg : ZoneConfig)
    {cs cs' : List (List ℕ)} (h : mergeStep dist pois cfg cs = some cs') :
    cs'.length + 1 = cs.length := by
  obtain ⟨i, j, hi, hj, hij, hsz, hmin, rfl⟩ := mergeStep_some dist pois cfg h
  rw [List.length_eraseIdx, List.length_set]
  rw [if_pos hj]
  omega

lemma mergeStep_flatten_perm (dist : Point → Point → ℚ) (pois : List Point)
    (cfg : ZoneConfig) {cs cs' : List (List ℕ)} (h : mergeStep dist pois cfg cs = some cs') :
    cs'.flatten.Perm cs.flatten := by
  obtain ⟨i, j, hi, hj, hij, -, -, rfl⟩ := mergeStep_some dist pois cfg h
  exact flatten_set_eraseIdx_perm cs i j (Ne.symm hij) hi hj

lemma mergeStep_sizes (dist : Point → Point → ℚ) (pois : List Point) (cfg : ZoneConfig)
    {cs cs' : List (List ℕ)} (h : mergeStep dist pois cfg cs = some cs')
    (hcs : ∀ c ∈ cs, 1 ≤ c.length ∧ c.length ≤ cfg.maxPoisPerZone) :
    ∀ c ∈ cs', 1 ≤ c.length ∧ c.length ≤ cfg.maxPoisPerZone := by
  obtain ⟨i, j, hi, hj, hij, hsz, -, rfl⟩ := mergeStep_some dist pois cfg h
  intro c hc
  have hc₁ : c ∈ cs.set i (cs.getD i [] ++ cs.getD j []) :=
    (List.eraseIdx_sublist _ j).mem hc
  rcases List.mem_or_eq_of_mem_set hc₁ with hmem | rfl
  · exact hcs c hmem
  · have hipos : 1 ≤ (cs.getD i []).length := by
      refine (hcs (cs.getD i []) ?_).1
      rw [List.getD_eq_getElem _ _ hi]
      exact List.getElem_mem hi
    rw [List.length_append]
    omega

lemma mergeStep_nonempty (dist : Point → Point → ℚ) (pois : List Point) (cfg : ZoneConfig)
    {cs cs' : List (List ℕ)} (h : mergeStep dist pois cfg cs = some cs')
    (hcs : ∀ c ∈ cs, c ≠ []) : ∀ c ∈ cs', c ≠ [] := by
  obtain ⟨i, j, hi, hj, hij, -, -, rfl⟩ := mergeStep_some dist pois cfg h
  intro c hc
  have hc₁ : c ∈ cs.set i (cs.getD i [] ++ cs.getD j []) :=
    (List.eraseIdx_sublist _ j).mem hc
  rcases List.mem_or_eq_of_mem_set hc₁ with hmem | rfl
  · exact hcs c hmem
  · have : cs.getD i [] ≠ [] := by
      refine hcs (cs.getD i []) ?_
      rw [List.getD_eq_getElem _ _ hi]
      exact List.getElem_mem hi
    intro hap
    rcases List.append_eq_nil.mp hap with ⟨h1, -⟩
    exact this h1

/-- A cluster list with at most one entry admits no merge. -/
lemma mergeStep_of_length_le_one (dist : Point → Point → ℚ) (pois : List Point)
    (cfg : ZoneConfig) (cs : List (List ℕ)) (h : cs.length ≤ 1) :
    mergeStep dist pois cfg cs = none := by
  match cs, h with
  | [], _ => rfl
  | [c], _ =>
    rw [mergeStep, findMerge]
    have hfm : findMergeAux dist pois cfg [c] (List.range [c].length) = none := by
      refine findMergeAux_none dist pois cfg [c] _ ?_
      intro k hk _
      rw [List.length_singleton, List.mem_range, Nat.lt_one_iff] at hk
      subst hk
      rw [bestMergeIndex]
      have : bestMergeStep dist pois cfg [c] 0 none 0 = none := by
        simp only [bestMergeStep]
        simp
      have hr1 : List.range 1 = [0] := rfl
      rw [List.length_singleton, hr1, List.foldl_cons, this, List.foldl_nil]
    rw [hfm]

lemma mergeLoop_flatten_perm (dist : Point → Point → ℚ) (pois : List Point)
    (cfg : ZoneConfig) :
    ∀ (fuel : ℕ) (cs : List (List ℕ)),
      (mergeLoop dist pois cfg fuel cs).flatten.Perm cs.flatten
  | 0, cs => List.Perm.refl _
  | fuel + 1, cs => by
    rw [mergeLoop]
    rcases h : mergeStep dist pois cfg cs with _ | cs'
    · exact List.Perm.refl _
    · exact (mergeLoop_flatten_perm dist pois cfg fuel cs').trans
        (mergeStep_flatten_perm dist pois cfg h)

lemma mergeLoop_sizes (dist : Point → Point → ℚ) (pois : List Point) (cfg : ZoneConfig) :
    ∀ (fuel : ℕ) (cs : List (List ℕ)),
      (∀ c ∈ cs, 1 ≤ c.length ∧ c.length ≤ cfg.maxPoisPerZone) →
      ∀ c ∈ mergeLoop dist pois cfg fuel cs, 1 ≤ c.length ∧ c.length ≤ cfg.maxPoisPerZone
  | 0, cs, hcs => hcs
  | fuel + 1, cs, hcs => by
    rw [mergeLoop]
    rcases h : mergeStep dist pois cfg cs with _ | cs'
    · exact hcs
    · exact mergeLoop_sizes dist pois cfg fuel cs' (mergeStep_sizes dist pois cfg h hcs)

lemma mergeLoop_nonempty (dist : Point → Point → ℚ) (pois : List Point) (cfg : ZoneConfig) :
    ∀ (fuel : ℕ) (cs : List (List ℕ)), (∀ c ∈ cs, c ≠ []) →
      ∀ c ∈ mergeLoop dist pois cfg fuel cs, c ≠ []
  | 0, cs, hcs => hcs
  | fuel + 1, cs, hcs => by
    rw [mergeLoop]
    rcases h : mergeStep dist pois cfg cs with _ | cs'
    · exact hcs
    · exact mergeLoop_nonempty dist pois cfg fuel cs' (mergeStep_nonempty dist pois cfg h hcs)

lemma mergeLoop_length_pos (dist : Point → Point → ℚ) (pois : List Point) (cfg : ZoneConfig) :
    ∀ (fuel : ℕ) (cs : List (List ℕ)), 0 < cs.length →
      0 < (mergeLoop dist pois cfg fuel cs).length
  | 0, cs, hcs => hcs
  | fuel + 1, cs, hcs => by
    rw [mergeLoop]
    rcases h : mergeStep dist pois cfg cs with _ | cs'
    · exact hcs
    · obtain ⟨i, j, hi, hj, hij, -, -, -⟩ := mergeStep_some dist pois cfg h
      have hlen := mergeStep_length dist pois cfg h
      exact mergeLoop_length_pos dist pois cfg fuel cs' (by omega)

/-- With fuel at least the cluster count, the merge loop runs to a true
fixed point: a further pass would find no merge. -/
lemma mergeLoop_fixpoint (dist : Point → Point → ℚ) (pois : List Point) (cfg : ZoneConfig) :
    ∀ (fuel : ℕ) (cs : List (List ℕ)), cs.length ≤ fuel →
      mergeStep dist pois cfg (mergeLoop dist pois cfg fuel cs) = none
  | 0, cs, h => by
    rw [mergeLoop]
    exact mergeStep_of_length_le_one dist pois cfg cs (by omega)
  | fuel + 1, cs, h => by
    rw [mergeLoop]
    rcases heq : mergeStep dist pois cfg cs with _ | cs'
    · exact heq
    · have hlen := mergeStep_length dist pois cfg heq
      exact mergeLoop_fixpoint dist pois cfg fuel cs' (by omega)

lemma mergeSmallClusters_flatten_perm (dist : Point → Point → ℚ) (pois : List Point)
    (cfg : ZoneConfig) (cs : List (List ℕ)) :
    (mergeSmallClusters dist pois cfg cs).flatten.Perm cs.flatten := by
  rw [mergeSmallClusters]
  by_cases h : cs.length ≤ 1
  · rw [if_pos h]
  · rw [if_neg h]
    exact mergeLoop_flatten_perm dist pois cfg cs.length cs

lemma mergeSmallClusters_sizes (dist : Point → Point → ℚ) (pois : List Point)
    (cfg : ZoneConfig) (cs : List (List ℕ))
    (hcs : ∀ c ∈ cs, 1 ≤ c.length ∧ c.length ≤ cfg.maxPoisPerZone) :
    ∀ c ∈ mergeSmallClusters dist pois cfg cs, 1 ≤ c.length ∧ c.length ≤ cfg.maxPoisPerZone := by
  rw [mergeSmallClusters]
  by_cases h : cs.length ≤ 1
  · rw [if_pos h]
    exact hcs
  · rw [if_neg h]
    exact mergeLoop_sizes dist pois cfg cs.length cs hcs

lemma mergeSmallClusters_nonempty (dist : Point → Point → ℚ) (pois : List Point)
    (cfg : ZoneConfig) (cs : List (List ℕ)) (hcs : ∀ c ∈ cs, c ≠ []) :
    ∀ c ∈ mergeSmallClusters dist pois cfg cs, c ≠ [] := by
  rw [mergeSmallClusters]
  by_cases h : cs.length ≤ 1
  · rw [if_pos h]
    exact hcs
  · rw [if_neg h]
    exact mergeLoop_nonempty dist pois cfg cs.length cs hcs

lemma mergeSmallClusters_length_pos (dist : Point → Point → ℚ) (pois : List Point)
    (cfg : ZoneConfig) (cs : List (List ℕ)) (hcs : 0 < cs.length) :
    0 < (mergeSmallClusters dist pois cfg cs).length := by
  rw [mergeSmallClusters]
  by_cases h : cs.length ≤ 1
  · rw [if_pos h]
    exact hcs
  · rw [if_neg h]
    exact mergeLoop_length_pos dist pois cfg cs.length cs hcs

/-- The rebalancer's output is a fixed point: one more pass finds no merge. -/
lemma mergeSmallClusters_fixpoint (dist : Point → Point → ℚ) (pois : List Point)
    (cfg : ZoneConfig) (cs : List (List ℕ)) :
    mergeStep dist pois cfg (mergeSmallClusters dist pois cfg cs) = none := by
  rw [mergeSmallClusters]
  by_cases h : cs.length ≤ 1
  · rw [if_pos h]
    exact mergeStep_of_length_le_one dist pois cfg cs h
  · rw [if_neg h]
    exact mergeLoop_fixpoint dist pois cfg cs.length cs le_rfl

/-! ## clusterPOIs and planZones transport lemmas -/

lemma sortedIndices_perm (pois : List Point) :
    (sortedIndices pois).Perm (List.range pois.length) :=
  List.perm_insertionSort _ _

lemma sortedIndices_nodup (pois : List Point) : (sortedIndices pois).Nodup :=
  ((sortedIndices_perm pois).nodup_iff).mpr (List.nodup_range _)

/-- The final cluster list holds every input index exactly once. -/
lemma clusterPOIs_flatten_perm (dist : Point → Point → ℚ) (pois : List Point)
    (cfg : ZoneConfig) :
    (clusterPOIs dist pois cfg).flatten.Perm (List.range pois.length) := by
  rw [clusterPOIs]
  by_cases h : pois.length = 0
  · rw [if_pos h, h]
    simp
  · rw [if_neg h]
    refine (mergeSmallClusters_flatten_perm dist pois cfg _).trans ?_
    have hg := greedyClusters_flatten_perm dist pois cfg (sortedIndices pois)
      (sortedIndices_nodup pois) (sortedIndices pois) [] (sortedIndices_nodup pois)
      (fun x hx => hx) (fun x hx _ => hx)
    have hfil : ((sortedIndices pois).filter fun x => decide (x ∉ ([] : List ℕ))) =
        sortedIndices pois := by
      refine List.filter_eq_self.mpr ?_
      intro x _
      simp
    rw [hfil] at hg
    exact hg.trans (sortedIndices_perm pois)

lemma greedyClusters_sizes (dist : Point → Point → ℚ) (pois : List Point)
    (cfg : ZoneConfig) (all : List ℕ) (hmax : 1 ≤ cfg.maxPoisPerZone) :
    ∀ order assigned : List ℕ, ∀ c ∈ greedyClusters dist pois cfg all order assigned,
      1 ≤ c.length ∧ c.length ≤ cfg.maxPoisPerZone := by
  intro order
  induction order with
  | nil => intro assigned c hc; rw [greedyClusters] at hc; cases hc
  | cons s rest ih =>
    intro assigned c hc
    rw [greedyClusters] at hc
    by_cases hs : s ∈ assigned
    · rw [if_pos hs] at hc
      exact ih assigned c hc
    · rw [if_neg hs] at hc
      rcases List.mem_cons.mp hc with rfl | hc'
      · exact mkCluster_length dist pois cfg all assigned s hmax
      · exact ih _ c hc'

lemma greedyClusters_nonempty (dist : Point → Point → ℚ) (pois : List Point)
    (cfg : ZoneConfig) (all : List ℕ) :
    ∀ order assigned : List ℕ, ∀ c ∈ greedyClusters dist pois cfg all order assigned,
      c ≠ [] := by
  intro order
  induction order with
  | nil => intro assigned c hc; rw [greedyClusters] at hc; cases hc
  | cons s rest ih =>
    intro assigned c hc
    rw [greedyClusters] at hc
    by_cases hs : s ∈ assigned
    · rw [if_pos hs] at hc
      exact ih assigned c hc
    · rw [if_neg hs] at hc
      rcases List.mem_cons.mp hc with rfl | hc'
      · exact List.cons_ne_nil _ _
      · exact ih _ c hc'

lemma clusterPOIs_sizes (dist : Point → Point → ℚ) (pois : List Point)
    (cfg : ZoneConfig) (hmax : 1 ≤ cfg.maxPoisPerZone) :
    ∀ c ∈ clusterPOIs dist pois cfg, 1 ≤ c.length ∧ c.length ≤ cfg.maxPoisPerZone := by
  rw [clusterPOIs]
  by_cases h : pois.length = 0
  · rw [if_pos h]
    intro c hc
    cases hc
  · rw [if_neg h]
    exact mergeSmallClusters_sizes dist pois cfg _
      (greedyClusters_sizes dist pois cfg _ hmax _ _)

lemma clusterPOIs_nonempty (dist : Point → Point → ℚ) (pois : List Point)
    (cfg : ZoneConfig) : ∀ c ∈ clusterPOIs dist pois cfg, c ≠ [] := by
  rw [clusterPOIs]
  by_cases h : pois.length = 0
  · rw [if_pos h]
    intro c hc
    cases hc
  · rw [if_neg h]
    exact mergeSmallClusters_nonempty dist pois cfg _
      (greedyClusters_nonempty dist pois cfg _ _ _)

lemma clusterPOIs_length_pos (dist : Point → Point → ℚ) (pois : List Point)
    (cfg : ZoneConfig) (h : pois.length ≠ 0) :
    0 < (clusterPOIs dist pois cfg).length := by
  rw [clusterPOIs, if_neg h]
  refine mergeSmallClusters_length_pos dist pois cfg _ ?_
  have hlen : (sortedIndices pois).length = pois.length := by
    rw [(sortedIndices_perm pois).length_eq, List.length_range]
  rcases hne : sortedIndices pois with _ | ⟨s, rest⟩
  · rw [hne] at hlen
    exact absurd hlen.symm h
  · rw [greedyClusters, if_neg (List.not_mem_nil s)]
    simp

/-- Transport through the zone-building, zone-sorting and id-reassignment
stages of `planZones`: any zone observation that ignores `id` pulls back to a
permutation of the observations of the final clusters. -/
lemma planZones_map_perm {α : Type} (dist : Point → Point → ℚ)
    (zoomf : Bounds → MapSize → ℚ) (pois : List Point) (cfg : ZoneConfig)
    (g : Zone → α) (hid : ∀ (z : Zone) (s : String), g { z with id := s } = g z) :
    ((planZones dist zoomf pois cfg).map g).Perm
      ((clusterPOIs dist pois cfg).map fun c => g (zoneOfCluster zoomf pois cfg 0 c)) := by
  rw [planZones]
  by_cases h : pois.length = 0
  · rw [if_pos h, clusterPOIs, if_pos h]
    exact List.Perm.refl _
  · rw [if_neg h]
    rw [List.map_map]
    have e1 : (g ∘ fun iz : ℕ × Zone => { iz.2 with id := "zone-" ++ toString iz.1 }) =
        fun iz : ℕ × Zone => g iz.2 := by
      funext iz
      exact hid iz.2 _
    rw [e1, enum_map_snd_comp]
    refine ((List.perm_insertionSort zoneLE _).map g).trans ?_
    rw [List.map_map]
    have e2 : (g ∘ fun ic : ℕ × List ℕ => zoneOfCluster zoomf pois cfg ic.1 ic.2) =
        fun ic : ℕ × List ℕ => g (zoneOfCluster zoomf pois cfg 0 ic.2) := by
      funext ic
      exact hid (zoneOfCluster zoomf pois cfg 0 ic.2) ("zone-" ++ toString ic.1)
    have e4 : (clusterPOIs dist pois cfg).enum.map
          (fun ic => g (zoneOfCluster zoomf pois cfg 0 ic.2)) =
        (clusterPOIs dist pois cfg).map fun c => g (zoneOfCluster zoomf pois cfg 0 c) :=
      enum_map_snd_comp (clusterPOIs dist pois cfg)
        (fun c => g (zoneOfCluster zoomf pois cfg 0 c))
    rw [e2, e4]

lemma planZones_map_poiIndices_perm (dist : Point → Point → ℚ)
    (zoomf : Bounds → MapSize → ℚ) (pois : List Point) (cfg : ZoneConfig) :
    ((planZones dist zoomf pois cfg).map Zone.poiIndices).Perm (clusterPOIs dist pois cfg) := by
  have h := planZones_map_perm dist zoomf pois cfg Zone.poiIndices (fun z s => rfl)
  have e : ((clusterPOIs dist pois cfg).map fun c =>
      (zoneOfCluster zoomf pois cfg 0 c).poiIndices) = clusterPOIs dist pois cfg := by
    simp [zoneOfCluster]
  rw [e] at h
  exact h

lemma planZones_map_bounds_perm (dist : Point → Point → ℚ)
    (zoomf : Bounds → MapSize → ℚ) (pois : List Point) (cfg : ZoneConfig) :
    ((planZones dist zoomf pois cfg).map fun z => z.bounds).Perm
      ((clusterPOIs dist pois cfg).map fun c => calculateBounds (c.map (getPoi pois))) := by
  have h := planZones_map_perm dist zoomf pois cfg (fun z => z.bounds) (fun z s => rfl)
  have e : ((clusterPOIs dist pois cfg).map fun c =>
      (zoneOfCluster zoomf pois cfg 0 c).bounds) =
      (clusterPOIs dist pois cfg).map fun c => calculateBounds (c.map (getPoi pois)) := by
    simp [zoneOfCluster]
  rw [e] at h
  exact h

lemma planZones_length (dist : Point → Point → ℚ) (zoomf : Bounds → MapSize → ℚ)
    (pois : List Point) (cfg : ZoneConfig) :
    (planZones dist zoomf pois cfg).length = (clusterPOIs dist pois cfg).length := by
  have h := (planZones_map_poiIndices_perm dist zoomf pois cfg).length_eq
  rwa [List.length_map] at h

/-! ## Extremum folds, for the overall-bounds property -/

lemma foldl_op_init {f : ℚ → ℚ → ℚ} (hc : ∀ a b, f a b = f b a)
    (ha : ∀ a b c, f (f a b) c = f a (f b c)) :
    ∀ (l : List ℚ) (a b : ℚ), l.foldl f (f a b) = f a (l.foldl f b)
  | [], _, _ => rfl
  | q :: l, a, b => by
    rw [List.foldl_cons, List.foldl_cons, ha]
    exact foldl_op_init hc ha l a (f b q)

lemma ostep_rc {f : ℚ → ℚ → ℚ} (hc : ∀ a b, f a b = f b a)
    (ha : ∀ a b c, f (f a b) c = f a (f b c)) :
    ∀ (acc : Option ℚ) (x y : ℚ), ostep f (ostep f acc x) y = ostep f (ostep f acc y) x := by
  intro acc x y
  rcases acc with _ | m
  · simp only [ostep, Option.some.injEq]
    exact hc x y
  · simp only [ostep, Option.some.injEq]
    rw [ha, hc x y, ← ha]

lemma ofold_perm {f : ℚ → ℚ → ℚ} (hc : ∀ a b, f a b = f b a)
    (ha : ∀ a b c, f (f a b) c = f a (f b c)) {l₁ l₂ : List ℚ} (h : l₁.Perm l₂) :
    ofold f l₁ = ofold f l₂ :=
  foldl_perm_rc (ostep f) (ostep_rc hc ha) h none

lemma ofold_some (f : ℚ → ℚ → ℚ) :
    ∀ (xs : List ℚ) (m : ℚ), xs.foldl (ostep f) (some m) = some (xs.foldl f m)
  | [], _ => rfl
  | x :: xs, m => by
    rw [List.foldl_cons, List.foldl_cons]
    exact ofold_some f xs (f m x)

lemma ofold_cons (f : ℚ → ℚ → ℚ) (x : ℚ) (xs : List ℚ) :
    ofold f (x :: xs) = some (xs.foldl f x) := by
  rw [ofold, List.foldl_cons]
  exact ofold_some f xs x

lemma foldl_flatten_extreme {f : ℚ → ℚ → ℚ} (hc : ∀ a b, f a b = f b a)
    (ha : ∀ a b c, f (f a b) c = f a (f b c)) :
    ∀ L : List (List ℚ), (∀ c ∈ L, c ≠ []) → ∀ m : ℚ,
      L.flatten.foldl f m = (L.map (listExtreme f)).foldl f m
  | [], _, _ => rfl
  | c :: L, hne, m => by
    rw [List.flatten_cons, List.map_cons, List.foldl_append, List.foldl_cons]
    rcases c with _ | ⟨y, ys⟩
    · exact absurd rfl (hne [] (List.mem_cons_self _ L))
    · have hstep : (y :: ys).foldl f m = f m (listExtreme f (y :: ys)) := by
        rw [List.foldl_cons, listExtreme]
        exact foldl_op_init hc ha ys m y
      rw [hstep]
      exact foldl_flatten_extreme hc ha L
        (fun c hc' => hne c (List.mem_cons_of_mem _ hc')) _

lemma ofold_flatten {f : ℚ → ℚ → ℚ} (hc : ∀ a b, f a b = f b a)
    (ha : ∀ a b c, f (f a b) c = f a (f b c))
    (L : List (List ℚ)) (hne : ∀ c ∈ L, c ≠ []) :
    ofold f (L.map (listExtreme f)) = ofold f L.flatten := by
  rcases L with _ | ⟨c, L⟩
  · rfl
  · rcases c with _ | ⟨y, ys⟩
    · exact absurd rfl (hne [] (List.mem_cons_self _ L))
    · rw [List.map_cons, ofold_cons, List.flatten_cons, List.cons_append, ofold_cons,
        List.foldl_append]
      have hys : (ys : List ℚ).foldl f y = listExtreme f (y :: ys) := by
        rw [listExtreme]
      rw [hys]
      rw [foldl_flatten_extreme hc ha L
        (fun c hc' => hne c (List.mem_cons_of_mem _ hc')) (listExtreme f (y :: ys))]

/-! ## Field computations of the two bounds folds -/

lemma foldl_boundsUnion_north (rest : List Point) :
    ∀ b : Bounds, (rest.foldl boundsUnion b).north = (rest.map Point.lat).foldl max b.north := by
  induction rest with
  | nil => intro b; rfl
  | cons p rest ih =>
    intro b
    rw [List.foldl_cons, List.map_cons, List.foldl_cons]
    exact ih _

lemma foldl_boundsUnion_south (rest : List Point) :
    ∀ b : Bounds, (rest.foldl boundsUnion b).south = (rest.map Point.lat).foldl min b.south := by
  induction rest with
  | nil => intro b; rfl
  | cons p rest ih =>
    intro b
    rw [List.foldl_cons, List.map_cons, List.foldl_cons]
    exact ih _

lemma foldl_boundsUnion_east (rest : List Point) :
    ∀ b : Bounds, (rest.foldl boundsUnion b).east = (rest.map Point.lng).foldl max b.east := by
  induction rest with
  | nil => intro b; rfl
  | cons p rest ih =>
    intro b
    rw [List.foldl_cons, List.map_cons, List.foldl_cons]
    exact ih _

lemma foldl_boundsUnion_west (rest : List Point) :
    ∀ b : Bounds, (rest.foldl boundsUnion b).west = (rest.map Point.lng).foldl min b.west := by
  induction rest with
  | nil => intro b; rfl
  | cons p rest ih =>
    intro b
    rw [List.foldl_cons, List.map_cons, List.foldl_cons]
    exact ih _

lemma foldl_boundsJoin_north (ws : List Zone) :
    ∀ b : Bounds, (ws.foldl boundsJoin b).north =
      (ws.map fun w => w.bounds.north).foldl max b.north := by
  induction ws with
  | nil => intro b; rfl
  | cons w ws ih =>
    intro b
    rw [List.foldl_cons, List.map_cons, List.foldl_cons]
    exact ih _

lemma foldl_boundsJoin_south (ws : List Zone) :
    ∀ b : Bounds, (ws.foldl boundsJoin b).south =
      (ws.map fun w => w.bounds.south).foldl min b.south := by
  induction ws with
  | nil => intro b; rfl
  | cons w ws ih =>
    intro b
    rw [List.foldl_cons, List.map_cons, List.foldl_cons]
    exact ih _

lemma foldl_boundsJoin_east (ws : List Zone) :
    ∀ b : Bounds, (ws.foldl boundsJoin b).east =
      (ws.map fun w => w.bounds.east).foldl max b.east := by
  induction ws with
  | nil => intro b; rfl
  | cons w ws ih =>
    intro b
    rw [List.foldl_cons, List.map_cons, List.foldl_cons]
    exact ih _

lemma foldl_boundsJoin_west (ws : List Zone) :
    ∀ b : Bounds, (ws.foldl boundsJoin b).west =
      (ws.map fun w => w.bounds.west).foldl min b.west := by
  induction ws with
  | nil => intro b; rfl
  | cons w ws ih =>
    intro b
    rw [List.foldl_cons, List.map_cons, List.foldl_cons]
    exact ih _

lemma map_getPoi_range (pois : List Point) :
    (List.range pois.length).map (getPoi pois) = pois := by
  refine List.ext_getElem ?_ ?_
  · rw [List.length_map, List.length_range]
  · intro i h1 h2
    rw [List.getElem_map, List.getElem_range, getPoi, List.getD_eq_getElem _ _ h2]

/-- Generic one-field version of the overall-bounds property: the extremum
over the final zones' per-cluster extremes equals the extremum over all
points. -/
lemma overallBounds_field (dist : Point → Point → ℚ) (zoomf : Bounds → MapSize → ℚ)
    (pois : List Point) (cfg : ZoneConfig)
    {z : Zone} {zs : List Zone} (hz : planZones dist zoomf pois cfg = z :: zs)
    (f : ℚ → ℚ → ℚ) (hc : ∀ a b, f a b = f b a)
    (ha : ∀ a b c, f (f a b) c = f a (f b c))
    (proj : Point → ℚ) (bfield : Bounds → ℚ)
    (hcalc : ∀ (p : Point) (rest : List Point),
      bfield (calculateBounds (p :: rest)) = listExtreme f ((p :: rest).map proj))
    (hfold : ∀ (ws : List Zone) (b : Bounds),
      bfield (ws.foldl boundsJoin b) = (ws.map fun w => bfield w.bounds).foldl f (bfield b)) :
    bfield (zs.foldl boundsJoin z.bounds) = bfield (calculateBounds pois) := by
  have hpois : pois.length ≠ 0 := by
    intro h0
    have := planZones_length dist zoomf pois cfg
    rw [hz, clusterPOIs, if_pos h0] at this
    cases this
  have hcalc' : ∀ ps : List Point, ps ≠ [] →
      bfield (calculateBounds ps) = listExtreme f (ps.map proj) := by
    intro ps hps
    rcases ps with _ | ⟨p, rest⟩
    · exact absurd rfl hps
    · exact hcalc p rest
  have h1 : ofold f ((z :: zs).map fun w => bfield w.bounds) =
      some (bfield (zs.foldl boundsJoin z.bounds)) := by
    rw [List.map_cons, ofold_cons, hfold]
  have h3 := planZones_map_bounds_perm dist zoomf pois cfg
  rw [hz] at h3
  have hne := clusterPOIs_nonempty dist pois cfg
  have h4 : ofold f ((z :: zs).map fun w => bfield w.bounds) =
      ofold f ((clusterPOIs dist pois cfg).map fun c =>
        bfield (calculateBounds (c.map (getPoi pois)))) := by
    have h' := ofold_perm hc ha (h3.map bfield)
    rw [List.map_map, List.map_map] at h'
    exact h'
  have h6 : ((clusterPOIs dist pois cfg).map fun c =>
        bfield (calculateBounds (c.map (getPoi pois)))) =
      ((clusterPOIs dist pois cfg).map fun c =>
        c.map fun i => proj (getPoi pois i)).map (listExtreme f) := by
    rw [List.map_map]
    refine List.map_congr_left ?_
    intro c hcmem
    show bfield (calculateBounds (c.map (getPoi pois))) =
      listExtreme f (c.map fun i => proj (getPoi pois i))
    have hcne : c.map (getPoi pois) ≠ [] := by
      intro he
      exact hne c hcmem (List.map_eq_nil_iff.mp he)
    have hx := hcalc' (c.map (getPoi pois)) hcne
    rw [List.map_map] at hx
    exact hx
  have h7 := ofold_flatten hc ha
    ((clusterPOIs dist pois cfg).map fun c => c.map fun i => proj (getPoi pois i)) ?_
  swap
  · intro c hcm
    rw [List.mem_map] at hcm
    obtain ⟨c₀, hc₀, rfl⟩ := hcm
    intro he
    exact hne c₀ hc₀ (List.map_eq_nil_iff.mp he)
  have h8 : ((clusterPOIs dist pois cfg).map fun c =>
        c.map fun i => proj (getPoi pois i)).flatten =
      (clusterPOIs dist pois cfg).flatten.map fun i => proj (getPoi pois i) := by
    rw [List.map_flatten]
  have h9 := ofold_perm hc ha
    ((clusterPOIs_flatten_perm dist pois cfg).map fun i => proj (getPoi pois i))
  have h10 : ((List.range pois.length).map fun i => proj (getPoi pois i)) =
      pois.map proj := by
    have hi := congrArg (List.map proj) (map_getPoi_range pois)
    rw [List.map_map] at hi
    exact hi
  have h11 : ofold f (pois.map proj) = some (bfield (calculateBounds pois)) := by
    rcases hps : pois with _ | ⟨p, rest⟩
    · rw [hps] at hpois
      exact absurd rfl hpois
    · rw [List.map_cons, ofold_cons, hcalc' (p :: rest) (List.cons_ne_nil p rest),
        List.map_cons, listExtreme]
  have hchain : some (bfield (zs.foldl boundsJoin z.bounds)) =
      some (bfield (calculateBounds pois)) :=
    h1.symm.trans (h4.trans ((congrArg (ofold f) h6).trans (h7.trans
      ((congrArg (ofold f) h8).trans (h9.trans
        ((congrArg (ofold f) h10).trans h11))))))
  exact Option.some.inj hchain

/-- `calculateOverallBounds ∘ planZones` agrees with `calculateBounds` on
every nonempty input. -/
lemma calculateOverallBounds_planZones (dist : Point → Point → ℚ)
    (zoomf : Bounds → MapSize → ℚ) (pois : List Point) (cfg : ZoneConfig)
    (hpois : pois ≠ []) :
    calculateOverallBounds (planZones dist zoomf pois cfg) =
      some (calculateBounds pois) := by
  have hlen : pois.length ≠ 0 := by
    intro h0
    exact hpois (List.length_eq_zero.mp h0)
  obtain ⟨z, zs, hz⟩ : ∃ z zs, planZones dist zoomf pois cfg = z :: zs := by
    rcases hzs : planZones dist zoomf pois cfg with _ | ⟨z, zs⟩
    · exfalso
      have h1 := planZones_length dist zoomf pois cfg
      rw [hzs] at h1
      have h2 := clusterPOIs_length_pos dist pois cfg hlen
      rw [← h1] at h2
      cases h2
    · exact ⟨z, zs, rfl⟩
  rw [hz, calculateOverallBounds]
  congr 1
  ext
  · exact overallBounds_field dist zoomf pois cfg hz max max_comm max_assoc
      Point.lat Bounds.north
      (fun p rest => by
        rw [calculateBounds, foldl_boundsUnion_north, List.map_cons, listExtreme])
      (fun ws b => foldl_boundsJoin_north ws b)
  · exact overallBounds_field dist zoomf pois cfg hz min min_comm min_assoc
      Point.lat Bounds.south
      (fun p rest => by
        rw [calculateBounds, foldl_boundsUnion_south, List.map_cons, listExtreme])
      (fun ws b => foldl_boundsJoin_south ws b)
  · exact overallBounds_field dist zoomf pois cfg hz max max_comm max_assoc
      Point.lng Bounds.east
      (fun p rest => by
        rw [calculateBounds, foldl_boundsUnion_east, List.map_cons, listExtreme])
      (fun ws b => foldl_boundsJoin_east ws b)
  · exact overallBounds_field dist zoomf pois cfg hz min min_comm min_assoc
      Point.lng Bounds.west
      (fun p rest => by
        rw [calculateBounds, foldl_boundsUnion_west, List.map_cons, listExtreme])
      (fun ws b => foldl_boundsJoin_west ws b)

/-! ## The zone display order -/

lemma zoneLE_total (a b : Zone) : zoneLE a b ∨ zoneLE b a := by
  unfold zoneLE
  rw [abs_sub_comm b.bounds.north a.bounds.north]
  by_cases h : 1 / 100 < |a.bounds.north - b.bounds.north|
  · rw [if_pos h, if_pos h]
    exact le_total b.bounds.north a.bounds.north
  · rw [if_neg h, if_neg h]
    exact le_total a.bounds.west b.bounds.west

/-- The comparator relation `zoneLE` coincides with the spec's per-pair
ordering property. -/
lemma zoneLE_iff (a b : Zone) : zoneLE a b ↔ zonePairProp a b := by
  unfold zoneLE zonePairProp
  by_cases h : 1 / 100 < |a.bounds.north - b.bounds.north|
  · rw [if_pos h]
    constructor
    · intro hba
      left
      have habs : |a.bounds.north - b.bounds.north| = a.bounds.north - b.bounds.north :=
        abs_of_nonneg (by linarith)
      rw [habs] at h
      linarith
    · intro hor
      rcases hor with h1 | ⟨h2, -⟩
      · linarith
      · exact absurd h2 (not_le.mpr h)
  · rw [if_neg h]
    push_neg at h
    constructor
    · intro hw
      right
      exact ⟨h, hw⟩
    · intro hor
      rcases hor with h1 | ⟨-, h2⟩
      · exfalso
        have := le_abs_self (a.bounds.north - b.bounds.north)
        linarith
      · exact h2

/-- Adjacent zones in the output of `planZones` satisfy the display-order
property (the comparator is total, so insertion sort orders every adjacent
pair even though the relation is not transitive). -/
lemma chain'_zonePairProp_planZones (dist : Point → Point → ℚ)
    (zoomf : Bounds → MapSize → ℚ) (pois : List Point) (cfg : ZoneConfig) :
    List.Chain' zonePairProp (planZones dist zoomf pois cfg) := by
  rw [planZones]
  by_cases h : pois.length = 0
  · rw [if_pos h]
    exact List.chain'_nil
  · rw [if_neg h]
    have hch : List.Chain' zoneLE (List.insertionSort zoneLE
        ((clusterPOIs dist pois cfg).enum.map fun ic =>
          zoneOfCluster zoomf pois cfg ic.1 ic.2)) :=
      chain'_insertionSort zoneLE zoneLE_total _
    have hch2 : List.Chain' zonePairProp (List.insertionSort zoneLE
        ((clusterPOIs dist pois cfg).enum.map fun ic =>
          zoneOfCluster zoomf pois cfg ic.1 ic.2)) :=
      hch.imp fun a b hab => (zoneLE_iff a b).mp hab
    have e : (List.insertionSort zoneLE
        ((clusterPOIs dist pois cfg).enum.map fun ic =>
          zoneOfCluster zoomf pois cfg ic.1 ic.2)).enum.map Prod.snd =
        List.insertionSort zoneLE
          ((clusterPOIs dist pois cfg).enum.map fun ic =>
            zoneOfCluster zoomf pois cfg ic.1 ic.2) :=
      List.enum_map_snd _
    have hch3 : List.Chain' (fun a b : ℕ × Zone => zonePairProp a.2 b.2)
        (List.insertionSort zoneLE
          ((clusterPOIs dist pois cfg).enum.map fun ic =>
            zoneOfCluster zoomf pois cfg ic.1 ic.2)).enum :=
      (List.chain'_map Prod.snd).mp (e.symm ▸ hch2)
    refine (List.chain'_map
      (fun iz : ℕ × Zone => { iz.2 with id := "zone-" ++ toString iz.1 })).mpr ?_
    exact hch3

/-! ## Concrete evaluations (rational arithmetic is discharged by norm_num,
since the kernel does not reduce `Rat` arithmetic) -/

/-- Evaluation of the full pipeline on the three-row fixture: three isolated
points, one singleton cluster each (clusters are seeded north to south), no
merging (`minPoisPerZone = 1`), and the final sort places the 0.018°-north
zone first, then the 0°-north zone, then the 0.009°-north zone (the second
and third both form a "row" with a neighbour but not with each other). -/
lemma planZones_exPois3 :
    planZones exDistFar exZoom exPois3 cfgC3 =
      [{ zoneOfCluster exZoom exPois3 cfgC3 0 [2] with id := "zone-" ++ toString 0 },
       { zoneOfCluster exZoom exPois3 cfgC3 2 [0] with id := "zone-" ++ toString 1 },
       { zoneOfCluster exZoom exPois3 cfgC3 1 [1] with id := "zone-" ++ toString 2 }] := by
  have hlat01 : ¬ ((getPoi exPois3 1).lat ≤ (getPoi exPois3 0).lat) := by
    show ¬ ((9 / 1000 : ℚ) ≤ 0)
    norm_num
  have hlat02 : ¬ ((getPoi exPois3 2).lat ≤ (getPoi exPois3 0).lat) := by
    show ¬ ((18 / 1000 : ℚ) ≤ 0)
    norm_num
  have hlat12 : ¬ ((getPoi exPois3 2).lat ≤ (getPoi exPois3 1).lat) := by
    show ¬ ((18 / 1000 : ℚ) ≤ 9 / 1000)
    norm_num
  have hsort : sortedIndices exPois3 = [2, 1, 0] := by
    rw [sortedIndices]
    have hr : List.range exPois3.length = [0, 1, 2] := rfl
    rw [hr]
    simp only [List.insertionSort, List.orderedInsert]
    rw [if_neg hlat12]
    simp only [List.orderedInsert]
    rw [if_neg hlat02, if_neg hlat01]
  have hclu : clusterPOIs exDistFar exPois3 cfgC3 = [[2], [1], [0]] := by
    rw [clusterPOIs, if_neg (by decide : ¬ exPois3.length = 0), hsort]
    decide
  rw [planZones, if_neg (by decide : ¬ exPois3.length = 0), hclu]
  have henum : (([[2], [1], [0]] : List (List ℕ)).enum.map fun ic =>
      zoneOfCluster exZoom exPois3 cfgC3 ic.1 ic.2) =
      [zoneOfCluster exZoom exPois3 cfgC3 0 [2],
       zoneOfCluster exZoom exPois3 cfgC3 1 [1],
       zoneOfCluster exZoom exPois3 cfgC3 2 [0]] := rfl
  rw [henum]
  have hnbc : ¬ zoneLE (zoneOfCluster exZoom exPois3 cfgC3 1 [1])
      (zoneOfCluster exZoom exPois3 cfgC3 2 [0]) := by
    show ¬ (if (1 : ℚ) / 100 < |(9 : ℚ) / 1000 - 0| then (0 : ℚ) ≤ 9 / 1000
      else (1 : ℚ) ≤ 0)
    rw [if_neg (by rw [abs_of_nonneg (by norm_num : (0 : ℚ) ≤ 9 / 1000 - 0)]; norm_num)]
    norm_num
  have hac : zoneLE (zoneOfCluster exZoom exPois3 cfgC3 0 [2])
      (zoneOfCluster exZoom exPois3 cfgC3 2 [0]) := by
    show (if (1 : ℚ) / 100 < |(18 : ℚ) / 1000 - 0| then (0 : ℚ) ≤ 18 / 1000
      else (2 : ℚ) ≤ 0)
    rw [if_pos (by rw [abs_of_nonneg (by norm_num : (0 : ℚ) ≤ 18 / 1000 - 0)]; norm_num)]
    norm_num
  have hsz : List.insertionSort zoneLE
      [zoneOfCluster exZoom exPois3 cfgC3 0 [2],
       zoneOfCluster exZoom exPois3 cfgC3 1 [1],
       zoneOfCluster exZoom exPois3 cfgC3 2 [0]] =
      [zoneOfCluster exZoom exPois3 cfgC3 0 [2],
       zoneOfCluster exZoom exPois3 cfgC3 2 [0],
       zoneOfCluster exZoom exPois3 cfgC3 1 [1]] := by
    simp only [List.insertionSort, List.orderedInsert]
    rw [if_neg hnbc]
    simp only [List.orderedInsert]
    rw [if_pos hac]
  rw [hsz]
  rfl

/-- Evaluation of one merge step on two singleton clusters 10 m apart with
the default config: the undersized first cluster absorbs the second. -/
lemma mergeStep_exPois2 :
    mergeStep exDist10 exPois2 DEFAULT_CONFIG [[0], [1]] = some [[0, 1]] := by
  have h3000 : exDist10 (getClusterCenter exPois2 (([[0], [1]] : List (List ℕ)).getD 0 []))
      (getClusterCenter exPois2 (([[0], [1]] : List (List ℕ)).getD 1 [])) ≤
      DEFAULT_CONFIG.clusterRadiusMeters * 3 := by
    show (10 : ℚ) ≤ 1000 * 3
    norm_num
  have hb0 : bestMergeStep exDist10 exPois2 DEFAULT_CONFIG [[0], [1]] 0 none 0 = none := by
    simp only [bestMergeStep]
    simp
  have hb1 : bestMergeStep exDist10 exPois2 DEFAULT_CONFIG [[0], [1]] 0 none 1 =
      some (1, exDist10 (getClusterCenter exPois2 (([[0], [1]] : List (List ℕ)).getD 0 []))
        (getClusterCenter exPois2 (([[0], [1]] : List (List ℕ)).getD 1 []))) := by
    simp only [bestMergeStep]
    rw [if_neg (by decide : ¬ (1 : ℕ) = 0),
      if_neg (by decide : ¬ DEFAULT_CONFIG.maxPoisPerZone <
        (([[0], [1]] : List (List ℕ)).getD 0 []).length +
          (([[0], [1]] : List (List ℕ)).getD 1 []).length),
      if_pos h3000]
  have hbi : bestMergeIndex exDist10 exPois2 DEFAULT_CONFIG [[0], [1]] 0 =
      some (1, exDist10 (getClusterCenter exPois2 (([[0], [1]] : List (List ℕ)).getD 0 []))
        (getClusterCenter exPois2 (([[0], [1]] : List (List ℕ)).getD 1 []))) := by
    rw [bestMergeIndex]
    have hr : List.range ([[0], [1]] : List (List ℕ)).length = [0, 1] := rfl
    rw [hr, List.foldl_cons, List.foldl_cons, List.foldl_nil, hb0, hb1]
  have hfm : findMerge exDist10 exPois2 DEFAULT_CONFIG [[0], [1]] = some (0, 1) := by
    rw [findMerge]
    have hr : List.range ([[0], [1]] : List (List ℕ)).length = [0, 1] := rfl
    rw [hr, findMergeAux, if_neg (by decide : ¬ DEFAULT_CONFIG.minPoisPerZone ≤
      (([[0], [1]] : List (List ℕ)).getD 0 []).length), hbi]
  rw [mergeStep, hfm]
  rfl

/-! ## The claims -/

/-- C1: for every input list of points of length n (n ≥ 0) and every config
with positive `minPoisPerZone ≤ maxPoisPerZone` and positive
`clusterRadiusMeters`, the union of the `poiIndices` of all zones returned by
`planZones`, as a set, equals `{0, …, n-1}` with no index in more than one
zone — stated as: the concatenation of all zones' index lists is a
permutation of `range n` (a permutation of a duplicate-free enumeration is
exactly a partition).  Quantification over `dist` covers the engine's actual
haversine metric. -/
theorem claim_C1 (dist : Point → Point → ℚ) (zoomf : Bounds → MapSize → ℚ)
    (pois : List Point) (cfg : ZoneConfig)
    (hmin : 1 ≤ cfg.minPoisPerZone) (hminmax : cfg.minPoisPerZone ≤ cfg.maxPoisPerZone)
    (hrad : 0 < cfg.clusterRadiusMeters) :
    ((planZones dist zoomf pois cfg).map Zone.poiIndices).flatten.Perm
      (List.range pois.length) :=
  ((planZones_map_poiIndices_perm dist zoomf pois cfg).flatten).trans
    (clusterPOIs_flatten_perm dist pois cfg)

theorem claim_C1_witness :
    ((planZones exDistFar exZoom exPois3 DEFAULT_CONFIG).map Zone.poiIndices).flatten.Perm
      (List.range exPois3.length) :=
  claim_C1 exDistFar exZoom exPois3 DEFAULT_CONFIG (by decide) (by decide) (by decide)

/-- C2: for every nonempty input and every config with positive
`minPoisPerZone ≤ maxPoisPerZone` and positive `clusterRadiusMeters`, every
zone returned by `planZones` has `1 ≤ poiIndices.length ≤ maxPoisPerZone`,
and `maxPoisPerZone` is exceeded neither by the greedy clustering stage
(`greedyClusters`, the seed loop of `clusterPOIs`) nor by the rebalancing
merge stage (`clusterPOIs`'s final output after `mergeSmallClusters`). -/
theorem claim_C2 (dist : Point → Point → ℚ) (zoomf : Bounds → MapSize → ℚ)
    (pois : List Point) (cfg : ZoneConfig) (hne : pois ≠ [])
    (hmin : 1 ≤ cfg.minPoisPerZone) (hminmax : cfg.minPoisPerZone ≤ cfg.maxPoisPerZone)
    (hrad : 0 < cfg.clusterRadiusMeters) :
    (∀ c ∈ greedyClusters dist pois cfg (sortedIndices pois) (sortedIndices pois) [],
      1 ≤ c.length ∧ c.length ≤ cfg.maxPoisPerZone) ∧
    (∀ c ∈ clusterPOIs dist pois cfg, 1 ≤ c.length ∧ c.length ≤ cfg.maxPoisPerZone) ∧
    ∀ z ∈ planZones dist zoomf pois cfg,
      1 ≤ z.poiIndices.length ∧ z.poiIndices.length ≤ cfg.maxPoisPerZone := by
  have hmax : 1 ≤ cfg.maxPoisPerZone := le_trans hmin hminmax
  refine ⟨greedyClusters_sizes dist pois cfg _ hmax _ _,
    clusterPOIs_sizes dist pois cfg hmax, ?_⟩
  intro z hz
  have hmem : z.poiIndices ∈ (planZones dist zoomf pois cfg).map Zone.poiIndices :=
    List.mem_map_of_mem Zone.poiIndices hz
  have hcl : z.poiIndices ∈ clusterPOIs dist pois cfg :=
    (planZones_map_poiIndices_perm dist zoomf pois cfg).mem_iff.mp hmem
  exact clusterPOIs_sizes dist pois cfg hmax _ hcl

theorem claim_C2_witness :
    1 ≤ ((planZones exDistFar exZoom exPois3 cfgC3).getD 0 exZone).poiIndices.length ∧
      ((planZones exDistFar exZoom exPois3 cfgC3).getD 0
        exZone).poiIndices.length ≤ cfgC3.maxPoisPerZone :=
  (claim_C2 exDistFar exZoom exPois3 cfgC3 (by decide) (by decide) (by decide)
    (by decide)).2.2 _ (by rw [planZones_exPois3]; exact List.mem_cons_self _ _)

/-- C3 (counterexample): the claimed property — every pair of zones A before
B in the result satisfies `A.north > B.north + 0.01` or
(`|A.north − B.north| ≤ 0.01` and `A.west ≤ B.west`) — fails on three
single-point zones with norths 0.018°, 0.009° and 0°: the comparator is not
transitive (0.018 vs 0.009 and 0.009 vs 0 are "same row", 0.018 vs 0 is
not), and the sorted output `[north 0.018, north 0, north 0.009]` violates
the property at the non-adjacent pair (first, third). -/
theorem claim_C3_cex :
    ¬ List.Pairwise zonePairProp (planZones exDistFar exZoom exPois3 cfgC3) := by
  rw [planZones_exPois3]
  intro hp
  have h13 : zonePairProp
      { zoneOfCluster exZoom exPois3 cfgC3 0 [2] with id := "zone-" ++ toString 0 }
      { zoneOfCluster exZoom exPois3 cfgC3 1 [1] with id := "zone-" ++ toString 2 } := by
    rcases hp with _ | ⟨h1, -⟩
    exact h1 _ (by simp)
  have h13' : (9 : ℚ) / 1000 + 1 / 100 < 18 / 1000 ∨
      (|(18 : ℚ) / 1000 - 9 / 1000| ≤ 1 / 100 ∧ (2 : ℚ) ≤ 1) := h13
  rcases h13' with hlt | ⟨-, hw⟩
  · norm_num at hlt
  · norm_num at hw

/-- C3 (amended): for every input and config, every pair of ADJACENT zones
A, B (A directly before B) in the list returned by `planZones` satisfies
either `A.bounds.north > B.bounds.north + 0.01`, or both
`|A.bounds.north − B.bounds.north| ≤ 0.01` and `A.bounds.west ≤ B.bounds.west`.
The pairwise version over all (also non-adjacent) pairs is refuted by
`claim_C3_cex`; adjacency is what the sort's total but non-transitive
comparator guarantees. -/
theorem claim_C3_amended (dist : Point → Point → ℚ) (zoomf : Bounds → MapSize → ℚ)
    (pois : List Point) (cfg : ZoneConfig) :
    List.Chain' zonePairProp (planZones dist zoomf pois cfg) :=
  chain'_zonePairProp_planZones dist zoomf pois cfg

/-- C4: `planZones` is deterministic — two calls with identical input and
config return identical results (same zones, order, ids, index lists,
bounds, centers and zooms).  The embedding is a pure function of the input,
the config and the two supplied pure helpers (`dist`, `zoomf`), so the
property holds by reflexivity; all sorts in the pipeline are concrete stable
sorts and no ambient state exists. -/
theorem claim_C4 (dist : Point → Point → ℚ) (zoomf : Bounds → MapSize → ℚ)
    (pois : List Point) (cfg : ZoneConfig) :
    planZones dist zoomf pois cfg = planZones dist zoomf pois cfg := rfl

/-- C5: in the rebalancing stage, (1) the inner scan `bestMergeIndex` for an
undersized cluster `i` returns only a distinct, in-range cluster `j`
satisfying the size bound `|i|+|j| ≤ maxPoisPerZone` and centroid distance
`≤ 3 × clusterRadiusMeters`, minimal among all eligible clusters; (2) a pass
(`findMerge`) merges only a cluster `i` below `minPoisPerZone` with the `j`
so found (the loop then restarts from the beginning, as `mergeLoop` re-runs
`mergeStep`, which rescans from index 0); (3) if no undersized cluster has an
eligible partner, `mergeSmallClusters` returns its input unchanged, so those
clusters remain below `minPoisPerZone` in the final output. -/
theorem claim_C5 (dist : Point → Point → ℚ) (pois : List Point) (cfg : ZoneConfig)
    (cs : List (List ℕ)) :
    (∀ i j d, bestMergeIndex dist pois cfg cs i = some (j, d) →
      j < cs.length ∧ mergeElig dist pois cfg cs i j ∧
        d = centroidDist dist pois cs i j ∧
        ∀ k < cs.length, mergeElig dist pois cfg cs i k →
          d ≤ centroidDist dist pois cs i k) ∧
    (∀ i j, findMerge dist pois cfg cs = some (i, j) →
      i < cs.length ∧ (cs.getD i []).length < cfg.minPoisPerZone ∧
        ∃ d, bestMergeIndex dist pois cfg cs i = some (j, d)) ∧
    ((∀ i, i < cs.length → (cs.getD i []).length < cfg.minPoisPerZone →
        bestMergeIndex dist pois cfg cs i = none) →
      mergeSmallClusters dist pois cfg cs = cs) := by
  refine ⟨?_, ?_, ?_⟩
  · intro i j d h
    exact bestMergeIndex_some dist pois cfg cs i h
  · intro i j h
    obtain ⟨hmem, hlt, d, hd⟩ :=
      findMergeAux_some dist pois cfg cs (List.range cs.length) i j h
    exact ⟨List.mem_range.mp hmem, hlt, d, hd⟩
  · intro hnone
    rw [mergeSmallClusters]
    by_cases hl : cs.length ≤ 1
    · rw [if_pos hl]
    · rw [if_neg hl]
      have hms : mergeStep dist pois cfg cs = none := by
        rw [mergeStep, findMerge, findMergeAux_none dist pois cfg cs _
          (fun k hk hlt => hnone k (List.mem_range.mp hk) hlt)]
      rcases hfe : cs.length with _ | fuel
      · omega
      · rw [mergeLoop, hms]

theorem claim_C5_witness :
    mergeSmallClusters exDist10 exPois2 DEFAULT_CONFIG
        [[0], [1, 2, 3, 4, 5, 6, 7, 8, 9, 10]] =
      [[0], [1, 2, 3, 4, 5, 6, 7, 8, 9, 10]] :=
  (claim_C5 exDist10 exPois2 DEFAULT_CONFIG
    [[0], [1, 2, 3, 4, 5, 6, 7, 8, 9, 10]]).2.2 (by decide)

/-- C6: for every nonempty input, `calculateOverallBounds` of the zones
returned by `planZones` equals `calculateBounds` of the input points: the
north/south/east/west extremes over all zones' bounds equal the extremes
over all points, because the zones partition the points and each zone's
bounds are the extremes over its members. -/
theorem claim_C6 (dist : Point → Point → ℚ) (zoomf : Bounds → MapSize → ℚ)
    (pois : List Point) (cfg : ZoneConfig) (hne : pois ≠ []) :
    calculateOverallBounds (planZones dist zoomf pois cfg) =
      some (calculateBounds pois) :=
  calculateOverallBounds_planZones dist zoomf pois cfg hne

theorem claim_C6_witness :
    calculateOverallBounds (planZones exDistFar exZoom exPois3 DEFAULT_CONFIG) =
      some (calculateBounds exPois3) :=
  claim_C6 exDistFar exZoom exPois3 DEFAULT_CONFIG (by decide)

/-- C7: the rebalancing merge loop terminates for every input: each
successful merge (`mergeStep … = some`) strictly reduces the cluster count
by one, and the output of `mergeSmallClusters` is a true fixed point — a
further full pass finds no merge (`mergeStep` of the result is `none`), so
the loop always ends and `mergeSmallClusters` is a total function (it is
defined by fuel `cs.length`, which these two facts show is never
exhausted). -/
theorem claim_C7 (dist : Point → Point → ℚ) (pois : List Point) (cfg : ZoneConfig) :
    (∀ cs cs' : List (List ℕ), mergeStep dist pois cfg cs = some cs' →
      cs'.length + 1 = cs.length) ∧
    ∀ cs : List (List ℕ), mergeStep dist pois cfg (mergeSmallClusters dist pois cfg cs) = none :=
  ⟨fun _ _ h => mergeStep_length dist pois cfg h,
    fun cs => mergeSmallClusters_fixpoint dist pois cfg cs⟩

theorem claim_C7_witness :
    ([[0, 1]] : List (List ℕ)).length + 1 = ([[0], [1]] : List (List ℕ)).length :=
  (claim_C7 exDist10 exPois2 DEFAULT_CONFIG).1 [[0], [1]] [[0, 1]] mergeStep_exPois2

/-- C9: `calculateOverallBounds` returns `none` (the `null` of the source)
exactly when the zone list is empty, and returns a `Bounds` value for every
nonempty zone list. -/
theorem claim_C9 (zones : List Zone) :
    (calculateOverallBounds zones = none ↔ zones = []) ∧
    (zones ≠ [] → ∃ b, calculateOverallBounds zones = some b) := by
  rcases zones with _ | ⟨z, zs⟩
  · exact ⟨⟨fun _ => rfl, fun _ => rfl⟩, fun h => absurd rfl h⟩
  · refine ⟨⟨fun h => ?_, fun h => ?_⟩, fun _ => ⟨_, rfl⟩⟩
    · rw [calculateOverallBounds] at h
      cases h
    · cases h

theorem claim_C9_witness : ∃ b, calculateOverallBounds [exZone] = some b :=
  (claim_C9 [exZone]).2 (by decide)

/-- C10: `getZonePOIs` performs no bounds checking: for every points list
and every zone it returns a list of the same length as `zone.poiIndices`,
whose k-th element is the JS lookup `pois[zone.poiIndices[k]]` — and
whenever an index is out of range the element at that position is the
out-of-range lookup result (`undefined`, modelled `none`) rather than an
error being raised (the function is total). -/
theorem claim_C10 (T : Type) (pois : List T) (zone : Zone) :
    (getZonePOIs pois zone).length = zone.poiIndices.length ∧
    (∀ (k i : ℕ), zone.poiIndices[k]? = some i →
      (getZonePOIs pois zone)[k]? = some pois[i]?) ∧
    ∀ i ∈ zone.poiIndices, pois.length ≤ i → pois[i]? = none := by
  refine ⟨List.length_map _ _, ?_, ?_⟩
  · intro k i h
    rw [getZonePOIs, List.getElem?_map, h]
    rfl
  · intro i _ h
    exact List.getElem?_eq_none h

theorem claim_C10_witness :
    (getZonePOIs [(7 : ℕ)] exZone)[1]? = some (([(7 : ℕ)] : List ℕ)[5]?) :=
  (claim_C10 ℕ [7] exZone).2.1 1 5 rfl

/-- C8 (counterexample): the claim — for every two-point input at haversine
distance 10 m, `planZones` with the default config returns one zone with
`poiIndices = [0, 1]` — fails when the second point is strictly more
northern: the index array is sorted by latitude descending, so index 1
becomes the seed and the zone's `poiIndices` is `[1, 0]`. -/
theorem claim_C8_cex :
    exDist10 ⟨0, 0⟩ ⟨1, 0⟩ = 10 ∧
      (planZones exDist10 exZoom exPois2 DEFAULT_CONFIG).map Zone.poiIndices ≠ [[0, 1]] :=
  ⟨rfl, by decide⟩

/-- C8 (amended): for every two-point input whose FIRST point is at least as
northern as the second (so index 0 is the seed) and whose distance is 10 m,
`planZones` with the default config returns exactly one zone with
`poiIndices = [0, 1]` — seed index first, then the nearest candidate.  (When
the second point is strictly more northern the seed is index 1 and the
single zone's list is `[1, 0]` instead, as `claim_C8_cex` shows.) -/
theorem claim_C8_amended (dist : Point → Point → ℚ) (zoomf : Bounds → MapSize → ℚ)
    (p0 p1 : Point) (hlat : p1.lat ≤ p0.lat) (hd : dist p0 p1 = 10) :
    (planZones dist zoomf [p0, p1] DEFAULT_CONFIG).map Zone.poiIndices = [[0, 1]] := by
  have h10 : dist (getPoi [p0, p1] 0) (getPoi [p0, p1] 1) ≤
      DEFAULT_CONFIG.clusterRadiusMeters := by
    show dist p0 p1 ≤ (1000 : ℚ)
    rw [hd]
    norm_num
  have hsort : sortedIndices [p0, p1] = [0, 1] := by
    rw [sortedIndices]
    have hr : List.range ([p0, p1] : List Point).length = [0, 1] := rfl
    rw [hr]
    simp only [List.insertionSort, List.orderedInsert]
    rw [if_pos (show (getPoi [p0, p1] 1).lat ≤ (getPoi [p0, p1] 0).lat from hlat)]
  have hclu : clusterPOIs dist [p0, p1] DEFAULT_CONFIG = [[0, 1]] := by
    rw [clusterPOIs, if_neg (by simp : ¬ ([p0, p1] : List Point).length = 0), hsort]
    have hc0 : ¬ ((0 : ℕ) ∉ [0] ∧ dist (getPoi [p0, p1] 0) (getPoi [p0, p1] 0) ≤
        DEFAULT_CONFIG.clusterRadiusMeters) := fun hcon => hcon.1 (by decide)
    have hc1 : (1 : ℕ) ∉ [0] ∧ dist (getPoi [p0, p1] 0) (getPoi [p0, p1] 1) ≤
        DEFAULT_CONFIG.clusterRadiusMeters := ⟨by decide, h10⟩
    have hmk : mkCluster dist [p0, p1] DEFAULT_CONFIG [0, 1] [] 0 = [0, 1] := by
      rw [mkCluster]
      have hfil : (([0, 1] : List ℕ).filter fun c =>
          decide (c ∉ [0] ∧ dist (getPoi [p0, p1] 0) (getPoi [p0, p1] c) ≤
            DEFAULT_CONFIG.clusterRadiusMeters)) = [1] := by
        simp only [List.filter_cons, List.filter_nil, decide_eq_true_eq]
        rw [if_neg hc0, if_pos hc1]
      rw [hfil]
      rfl
    rw [greedyClusters, if_neg (List.not_mem_nil 0), hmk]
    rw [greedyClusters, if_pos (show (1 : ℕ) ∈ [] ++ [0, 1] from by decide), greedyClusters]
    rw [mergeSmallClusters, if_pos (by decide : ([[0, 1]] : List (List ℕ)).length ≤ 1)]
  rw [planZones, if_neg (by simp : ¬ ([p0, p1] : List Point).length = 0), hclu]
  rfl

theorem claim_C8_witness :
    (planZones exDist10 exZoom [⟨1, 0⟩, ⟨0, 0⟩] DEFAULT_CONFIG).map Zone.poiIndices =
      [[0, 1]] :=
  claim_C8_amended exDist10 exZoom ⟨1, 0⟩ ⟨0, 0⟩ (by norm_num) rfl

end ZonePlanner
